import Mathlib

/-!
# Verification development for `prjflt_bug_repros.cpp`

A shallow embedding of the projected-file-system provider of
`src/prjflt_bug_repros.cpp`: the name comparators, the ordered file list
(`std::map` with `FileNameComparer`), the directory enumeration callbacks with
their session table, the file data callback and the CRC-32C helper.

Conventions.
* A wide string (`PCWSTR`, `std::wstring::c_str()`) is the list of its code
  units; reading at the end of the list yields the terminator `0`.
* `HRESULT` is a signed 32-bit value, modelled as an `Int`.
* `std::map` is modelled by its in-order key/value sequence; an iterator is the
  index of the element it points at, `end()` being the length.
* Functions of the host platform that are called but not defined in the
  source (`towupper`, `PrjFillDirEntryBuffer`, `PrjWriteFileData`, ...) are
  parameters of the definitions that call them.
-/

namespace PrjFlt

/-! ## Basic types -/

/-- A wide string: the UTF-16 code units before the terminator. -/
abbrev Name := List Nat

/-- Signed 32-bit status code. -/
abbrev HRESULT := Int

def S_OK : HRESULT := 0

/-- The value `0x8000FFFF` as a signed 32-bit integer. -/
def E_UNEXPECTED : HRESULT := -2147418113

def ERROR_INSUFFICIENT_BUFFER : Int := 122

def ERROR_NOT_FOUND : Int := 1168

/-- `FAILED(hr)`: the sign bit is set. -/
def FAILED (hr : HRESULT) : Bool := decide (hr < 0)

/-- `SUCCEEDED(hr)`. -/
def SUCCEEDED (hr : HRESULT) : Bool := decide (0 ≤ hr)

/-- `HRESULT_CODE(hr)`: the low 16 bits. -/
def HRESULT_CODE (hr : HRESULT) : Int := hr % 65536

/-- `HRESULT_FROM_WIN32(x)` for a positive error code: `0x80070000 | x` as a
signed 32-bit integer. -/
def HRESULT_FROM_WIN32 (x : Int) : HRESULT :=
  if x ≤ 0 then x else (x % 65536 + 2147942400) - 4294967296

/-- `*p` for a wide string: the first code unit, or the terminator. -/
def deref : Name → Nat
  | [] => 0
  | c :: _ => c

/-! ## Name comparison (source lines 38-62) -/

/-- The C-locale `towupper` of the C runtime on a code unit: `a`..`z` go to
`A`..`Z`, everything else is left alone. -/
def towupper (c : Nat) : Nat := if 97 ≤ c ∧ c ≤ 122 then c - 32 else c

/-- The C-locale `towlower` of the C runtime on a code unit. -/
def towlower (c : Nat) : Nat := if 65 ≤ c ∧ c ≤ 90 then c + 32 else c

/-- `NtfsFileNameCompare` (lines 41-51), with the case fold `up` it applies to
each code unit as a parameter (`towupper` in the source).  The loop reads both
strings in step; it stops with `0` when the folded units agree and the left
string is at its terminator, and with the difference of the folded units when
they disagree.  A code unit `0` inside a list ends the string there.  The loop
moves past the end of `ct` only when a unit other than `0` folds to the fold
of `0`, which `towupper` never does; the reads then yield `0` here. -/
def NtfsFileNameCompare (up : Nat → Nat) : Name → Name → Int
  | [], ct =>
    if up 0 = up (deref ct) then 0 else (up 0 : Int) - (up (deref ct) : Int)
  | c :: cs, ct =>
    if up c = up (deref ct) then
      if c = 0 then 0 else NtfsFileNameCompare up cs ct.tail
    else (up c : Int) - (up (deref ct) : Int)

/-- Modelled from the spec: `PrjFileNameCompare` is a function of the host
library and is not defined in the source; the comment at lines 38-40 and the
spec describe it as the lower-fold comparison of `wcsicmp`, which compares the
`towlower` images of the code units (so that `_` sorts before the letters).
This is the same walk as `NtfsFileNameCompare` with the fold `low`. -/
def PrjFileNameCompare (low : Nat → Nat) : Name → Name → Int
  | [], ct =>
    if low 0 = low (deref ct) then 0 else (low 0 : Int) - (low (deref ct) : Int)
  | c :: cs, ct =>
    if low c = low (deref ct) then
      if c = 0 then 0 else PrjFileNameCompare low cs ct.tail
    else (low c : Int) - (low (deref ct) : Int)

/-- The type `FileNameComparer::COMPARER`. -/
abbrev COMPARER := Name → Name → Int

/-- `FileNameComparer::operator()` (lines 58-61): `lhs` sorts before `rhs`
when the active comparer returns a negative number. -/
def FileNameComparer (Comparer : COMPARER) (lhs rhs : Name) : Bool :=
  decide (Comparer lhs rhs < 0)

/-! ## Placeholder records and the file list (lines 84-87) -/

structure PRJ_FILE_BASIC_INFO where
  IsDirectory : Bool
  FileSize : Nat
  CreationTime : Nat
  LastAccessTime : Nat
  LastWriteTime : Nat
  ChangeTime : Nat
  FileAttributes : Nat
  deriving DecidableEq, Repr

structure PRJ_PLACEHOLDER_INFO where
  FileBasicInfo : PRJ_FILE_BASIC_INFO
  deriving DecidableEq, Repr

/-- The in-order content of a `filelist_t`. -/
abbrev filelist_t := List (Name × PRJ_PLACEHOLDER_INFO)

/-- `filelist_t::insert(std::make_pair(k, v))` under the comparer: the pair is
placed before the first key that `k` sorts before; when a key equivalent to `k`
(neither sorts before the other) is already present nothing is inserted. -/
def filelist_insert (Comparer : COMPARER) (p : Name × PRJ_PLACEHOLDER_INFO) :
    filelist_t → filelist_t
  | [] => [p]
  | q :: rest =>
    if FileNameComparer Comparer p.1 q.1 then p :: q :: rest
    else if FileNameComparer Comparer q.1 p.1 then
      q :: filelist_insert Comparer p rest
    else q :: rest

/-- Inserting a sequence of pairs, in order, into a file list. -/
def filelist_insertAll (Comparer : COMPARER)
    (ps : List (Name × PRJ_PLACEHOLDER_INFO)) (l : filelist_t) : filelist_t :=
  ps.foldl (fun acc p => filelist_insert Comparer p acc) l

/-- The names of a file list in iteration order. -/
def filelist_names (l : filelist_t) : List Name := l.map Prod.fst

def FILE_ATTRIBUTE_READONLY : Nat := 1

def FILE_ATTRIBUTE_ARCHIVE : Nat := 32

/-- `sizeof(gs_fileBuf)`. -/
def sizeof_gs_fileBuf : Nat := 513

/-- The record `pi` that `ReproduceSortingBug` builds (lines 372-376). -/
def sortingBug_pi : PRJ_PLACEHOLDER_INFO :=
  { FileBasicInfo :=
      { IsDirectory := false
        FileSize := sizeof_gs_fileBuf
        CreationTime := 0
        LastAccessTime := 0
        LastWriteTime := 0
        ChangeTime := 0
        FileAttributes := FILE_ATTRIBUTE_READONLY ||| FILE_ATTRIBUTE_ARCHIVE } }

/-- The wide string `L"FileA"`. -/
def name_FileA : Name := [70, 105, 108, 101, 65]

/-- The wide string `L"File_"`. -/
def name_File_ : Name := [70, 105, 108, 101, 95]

/-- The wide string `L"Fileb"`. -/
def name_Fileb : Name := [70, 105, 108, 101, 98]

/-- The file list `ReproduceSortingBug` builds (lines 377-383): cleared, then
`FileA`, `File_`, `Fileb` inserted in that order under the comparer. -/
def ReproduceSortingBug_fileList (comparer : COMPARER) : filelist_t :=
  filelist_insertAll comparer
    [(name_FileA, sortingBug_pi), (name_File_, sortingBug_pi), (name_Fileb, sortingBug_pi)] []

/-! ## Enumeration sessions (lines 86-132) -/

/-- A `GUID`: the 16 bytes of the structure read as one big-endian number, so
that the `memcmp` order of `GUIDComparer` is the order of the numbers. -/
abbrev GUID := Nat

/-- `GUIDComparer::operator()` (lines 32-35). -/
def GUIDComparer (Left Right : GUID) : Bool := decide (Left < Right)

/-- `DirEnumSession` (lines 92-103); `it` is the index into the file list of
the entry the iterator points at. -/
structure DirEnumSession where
  fileName : Name
  it : Nat
  scanComplete : Bool
  deriving DecidableEq, Repr

/-- The in-order content of `gs_activeEnumSessions`. -/
abbrev sessions_t := List (GUID × DirEnumSession)

/-- The globals the callbacks read and write. -/
structure ProviderState where
  gs_fileList : filelist_t
  gs_activeEnumSessions : sessions_t
  deriving DecidableEq, Repr

/-- `gs_activeEnumSessions.find(id)`: the session stored under the key
equivalent to `id`, if there is one. -/
def sessions_find (id : GUID) : sessions_t → Option DirEnumSession
  | [] => none
  | p :: rest =>
    if !GUIDComparer p.1 id && !GUIDComparer id p.1 then some p.2
    else sessions_find id rest

/-- `gs_activeEnumSessions[id] = s`: the value under `id` is replaced when the
key is present, and the pair is inserted at its place in key order otherwise. -/
def sessions_assign (id : GUID) (s : DirEnumSession) : sessions_t → sessions_t
  | [] => [(id, s)]
  | p :: rest =>
    if GUIDComparer id p.1 then (id, s) :: p :: rest
    else if GUIDComparer p.1 id then p :: sessions_assign id s rest
    else (p.1, s) :: rest

/-- `gs_activeEnumSessions.erase(it)` for the iterator `find(id)` returned. -/
def sessions_erase (id : GUID) : sessions_t → sessions_t
  | [] => []
  | p :: rest =>
    if !GUIDComparer p.1 id && !GUIDComparer id p.1 then rest
    else p :: sessions_erase id rest

/-- A write through the pointer `find(id)` returned: the session object stored
under `id` becomes `s`. -/
def sessions_store (id : GUID) (s : DirEnumSession) : sessions_t → sessions_t
  | [] => []
  | p :: rest =>
    if !GUIDComparer p.1 id && !GUIDComparer id p.1 then (p.1, s) :: rest
    else p :: sessions_store id s rest

/-- The constructor `DirEnumSession(fileName)` (lines 97-102): the iterator is
`gs_fileList.begin()`. -/
def DirEnumSession_new (fileName : Name) : DirEnumSession :=
  { fileName := fileName, it := 0, scanComplete := false }

/-- `StartDirEnumCallback` (lines 105-115). -/
def StartDirEnumCallback (st : ProviderState) (FilePathName : Name)
    (EnumerationId : GUID) : HRESULT × ProviderState :=
  (S_OK,
   { gs_fileList := st.gs_fileList
     gs_activeEnumSessions :=
       (sessions_assign EnumerationId (DirEnumSession_new FilePathName)
         st.gs_activeEnumSessions) })

/-- `EndDirEnumCallback` (lines 117-132). -/
def EndDirEnumCallback (st : ProviderState) (EnumerationId : GUID) :
    HRESULT × ProviderState :=
  match sessions_find EnumerationId st.gs_activeEnumSessions with
  | some _ =>
    (S_OK,
     { gs_fileList := st.gs_fileList
       gs_activeEnumSessions :=
         (sessions_erase EnumerationId st.gs_activeEnumSessions) })
  | none => (S_OK, st)

/-! ## Directory enumeration (lines 134-176) -/

def PRJ_CB_DATA_FLAG_ENUM_RESTART_SCAN : Nat := 1

/-- The name matching functions of the host that `GetDirEnumCallback` calls. -/
structure NameMatchHost where
  PrjDoesNameContainWildCards : Name → Bool
  PrjFileNameMatch : Name → Name → Bool
  wcsicmp : Name → Name → Int

/-- The local `wildCards` (line 154); `none` is the null pointer. -/
def wildCards (host : NameMatchHost) (SearchExpression : Option Name) : Bool :=
  match SearchExpression with
  | none => false
  | some e => host.PrjDoesNameContainWildCards e

/-- The two `continue` conditions of the loop body (lines 157-163): `true`
when the entry called `name` is passed over. -/
def entrySkipped (host : NameMatchHost) (SearchExpression : Option Name)
    (name : Name) : Bool :=
  if wildCards host SearchExpression then
    match SearchExpression with
    | some e => !host.PrjFileNameMatch name e
    | none => false
  else
    match SearchExpression with
    | some e => decide (deref e ≠ 0) && decide (host.wcsicmp name e ≠ 0)
    | none => false

/-- The `for` loop of lines 155-173 over the entries from the iterator to the
end of the file list.  `it` is the iterator, `buf` the state of the entry
buffer and `fill` is `PrjFillDirEntryBuffer`.  The result is the returned
status, the iterator left in the session and the buffer. -/
def dirEnumLoop {σ : Type} (host : NameMatchHost)
    (fill : Name → PRJ_FILE_BASIC_INFO → σ → HRESULT × σ)
    (SearchExpression : Option Name) :
    filelist_t → Nat → σ → HRESULT × Nat × σ
  | [], it, buf => (S_OK, it, buf)
  | e :: rest, it, buf =>
    if entrySkipped host SearchExpression e.1 then
      dirEnumLoop host fill SearchExpression rest (it + 1) buf
    else
      let r := fill e.1 e.2.FileBasicInfo buf
      if FAILED r.1 then
        if HRESULT_CODE r.1 = ERROR_INSUFFICIENT_BUFFER then (S_OK, it, r.2)
        else (r.1, it, r.2)
      else dirEnumLoop host fill SearchExpression rest (it + 1) r.2

/-- `GetDirEnumCallback` (lines 134-176).  `Flags` is `CallbackData->Flags`,
`buf` the state of the buffer behind `DirEntryBufferHandle`. -/
def GetDirEnumCallback {σ : Type} (host : NameMatchHost)
    (fill : Name → PRJ_FILE_BASIC_INFO → σ → HRESULT × σ)
    (st : ProviderState) (Flags : Nat) (EnumerationId : GUID)
    (SearchExpression : Option Name) (buf : σ) : HRESULT × ProviderState × σ :=
  match sessions_find EnumerationId st.gs_activeEnumSessions with
  | none => (E_UNEXPECTED, st, buf)
  | some dirEntry =>
    let it0 :=
      if Flags &&& PRJ_CB_DATA_FLAG_ENUM_RESTART_SCAN ≠ 0 then 0 else dirEntry.it
    let r := dirEnumLoop host fill SearchExpression (st.gs_fileList.drop it0) it0 buf
    (r.1,
     { gs_fileList := st.gs_fileList
       gs_activeEnumSessions :=
         (sessions_store EnumerationId
           { fileName := dirEntry.fileName, it := r.2.1,
             scanComplete := dirEntry.scanComplete }
           st.gs_activeEnumSessions) },
     r.2.2)

/-- An entry as the buffer receives it: the name and the basic info. -/
abbrev DirEntry := Name × PRJ_FILE_BASIC_INFO

/-- An entry buffer with room for `C` entries: the state is the list of the
entries accepted so far; a further entry is refused with
`HRESULT_FROM_WIN32(ERROR_INSUFFICIENT_BUFFER)`. -/
def capacityFill (C : Nat) (name : Name) (info : PRJ_FILE_BASIC_INFO)
    (buf : List DirEntry) : HRESULT × List DirEntry :=
  if buf.length < C then (S_OK, buf ++ [(name, info)])
  else (HRESULT_FROM_WIN32 ERROR_INSUFFICIENT_BUFFER, buf)

/-- An entry buffer that accepts every entry. -/
def acceptFill (name : Name) (info : PRJ_FILE_BASIC_INFO)
    (buf : List DirEntry) : HRESULT × List DirEntry :=
  (S_OK, buf ++ [(name, info)])

/-- The entries of the file list that the search expression selects, as the
buffer would receive them, in iteration order. -/
def matchingEntries (host : NameMatchHost) (SearchExpression : Option Name)
    (l : filelist_t) : List DirEntry :=
  (l.filter (fun e => !entrySkipped host SearchExpression e.1)).map
    (fun e => (e.1, e.2.FileBasicInfo))

/-- The host calling `GetDirEnumCallback` `k` times in a row without the
restart flag, each time with an empty buffer of capacity `C`.  The result lists
the status and the accepted entries of each call, and the final state. -/
def fetchCalls (host : NameMatchHost) (C : Nat) (EnumerationId : GUID)
    (SearchExpression : Option Name) :
    Nat → ProviderState → List (HRESULT × List DirEntry) × ProviderState
  | 0, st => ([], st)
  | k + 1, st =>
    let r := GetDirEnumCallback host (capacityFill C) st 0 EnumerationId
      SearchExpression []
    let rs := fetchCalls host C EnumerationId SearchExpression k r.2.1
    ((r.1, r.2.2) :: rs.1, rs.2)

/-! ## CRC-32C (lines 64-80) -/

/-- The reflected CRC-32C (Castagnoli) polynomial. -/
def crc32c_poly : Nat := 0x82F63B78

/-- One shift of the reflected CRC register: the register moves right by one
bit and the polynomial is added when the bit shifted out is set. -/
def crcShift (crc : Nat) : Nat :=
  if crc % 2 = 1 then (crc >>> 1) ^^^ crc32c_poly else crc >>> 1

/-- The intrinsic `_mm_crc32_u8` (the `CRC32 r32, r/m8` instruction): the
byte is added to the low bits of the register, which is then shifted through
eight bits. -/
@[irreducible] def _mm_crc32_u8 (crc v : Nat) : Nat := crcShift^[8] (crc ^^^ v)

/-- The intrinsic `_mm_crc32_u32` (the `CRC32 r32, r/m32` instruction): the
double word is added to the register, which is then shifted through
thirty-two bits. -/
@[irreducible] def _mm_crc32_u32 (crc v : Nat) : Nat := crcShift^[32] (crc ^^^ v)

/-- `*(uint32_t*)buf` on the little-endian target: the four bytes at `buf`. -/
def load_u32 (b0 b1 b2 b3 : Nat) : Nat :=
  b0 + (b1 <<< 8) + (b2 <<< 16) + (b3 <<< 24)

/-- `~crc` on a 32-bit value. -/
def not32 (crc : Nat) : Nat := crc ^^^ 0xFFFFFFFF

/-- The `for` loop of lines 76-77: `len & 3` bytes are read from `buf`. -/
def crc32_tail (crc : Nat) (buf : List Nat) : Nat :=
  (buf.take (buf.length &&& 3)).foldl _mm_crc32_u8 crc

/-- The `while (len >= 4)` loop of lines 69-74 followed by the `for` loop. -/
def crc32_loop : Nat → List Nat → Nat
  | crc, b0 :: b1 :: b2 :: b3 :: rest =>
    crc32_loop (_mm_crc32_u32 crc (load_u32 b0 b1 b2 b3)) rest
  | crc, buf => crc32_tail crc buf

/-- `crc32(crc, buf, len)` (lines 65-80); `buf` is the list of the `len`
bytes. -/
def crc32 (crc : Nat) (buf : List Nat) : Nat :=
  not32 (crc32_loop (not32 crc) buf)

/-- CRC-32C one message bit at a time: the feedback is the low register bit
plus the message bit; the register moves right and the polynomial is added
when the feedback is set. -/
def crc32c_bit (crc : Nat) (bit : Nat) : Nat :=
  if (crc + bit) % 2 = 1 then (crc >>> 1) ^^^ crc32c_poly else crc >>> 1

/-- The eight bits of a byte, least significant first. -/
def byteBits (b : Nat) : List Nat :=
  (List.range 8).map (fun k => (b >>> k) % 2)

/-- The standard CRC-32C of a byte sequence computed bit by bit: the register
starts at `~seed`, every byte is fed least significant bit first, and the
result is the complement of the register. -/
def crc32c_bitwise (seed : Nat) (bytes : List Nat) : Nat :=
  not32 ((bytes.flatMap byteBits).foldl crc32c_bit (not32 seed))

/-- The content `main` gives `gs_fileBuf` (lines 454-456). -/
def main_gs_fileBuf : List Nat :=
  (List.range sizeof_gs_fileBuf).map (fun i => 97 + i % 25)

/-- The value `main` gives `gs_fileBufCrc32` (line 457) for the buffer
content `gs_fileBuf`. -/
def gs_fileBufCrc32 (gs_fileBuf : List Nat) : Nat := crc32 0 gs_fileBuf

/-! ## File data (lines 197-243) -/

/-- One call of `PrjWriteFileData` as the host sees it: the bytes behind the
buffer pointer, the byte offset and the length. -/
structure WriteCall where
  data : List Nat
  byteOffset : Nat
  length : Nat
  deriving DecidableEq, Repr

/-- `GetFileDataCallback` (lines 198-243).  `write` is `PrjWriteFileData` on
the state `sink` of the data stream, `allocOk` tells whether
`PrjAllocateAlignedBuffer` returned a buffer, `gs_fileBuf` is the content of
the global buffer and `injection` the global
`GetFileDataCallbackErrorInjection`.  The status is `none` when a `VERIFY`
fails and the process exits. -/
def GetFileDataCallback {σ : Type} (write : σ → WriteCall → HRESULT × σ)
    (allocOk : Bool) (gs_fileBuf : List Nat) (injection : HRESULT)
    (ByteOffset Length : Nat) (sink : σ) : Option HRESULT × σ :=
  if Length = 0 then (some S_OK, sink)
  else if !allocOk then (none, sink)
  else
    let buf := gs_fileBuf.take sizeof_gs_fileBuf
    if ByteOffset ≠ 0 then (none, sink)
    else if Length ≠ sizeof_gs_fileBuf then (none, sink)
    else
      let w1 := write sink
        { data := buf.take (Length / 2), byteOffset := ByteOffset, length := Length / 2 }
      if injection ≠ S_OK then (some injection, w1.2)
      else
        let w2 := write w1.2
          { data := (buf.drop (Length / 2)).take (Length - Length / 2)
            byteOffset := ByteOffset + Length / 2
            length := Length - Length / 2 }
        if SUCCEEDED w1.1 && SUCCEEDED w2.1 then (some S_OK, w2.2)
        else (none, w2.2)

/-- A data stream that records the calls it receives in order, on top of a
stream `write` that decides the status of each call. -/
def recordWrite {σ : Type} (write : σ → WriteCall → HRESULT × σ)
    (sink : σ × List WriteCall) (w : WriteCall) : HRESULT × (σ × List WriteCall) :=
  ((write sink.1 w).1, ((write sink.1 w).2, sink.2 ++ [w]))

/-- The effect of one write on the content of the file: the bytes are placed
at the byte offset, the file being extended with zeros when it is shorter. -/
def applyWrite (file : List Nat) (w : WriteCall) : List Nat :=
  (file.take w.byteOffset ++ List.replicate (w.byteOffset - file.length) 0)
    ++ w.data ++ file.drop (w.byteOffset + w.length)

/-! ## Predicates on the file list -/

/-- The file list is sorted: every key sorts strictly before the later ones. -/
def filelist_sorted (Comparer : COMPARER) (l : filelist_t) : Prop :=
  l.Pairwise (fun p q => Comparer p.1 q.1 < 0)

/-- Two names are comparable when one of them sorts before the other. -/
def comparable (Comparer : COMPARER) (p q : Name × PRJ_PLACEHOLDER_INFO) : Prop :=
  Comparer p.1 q.1 < 0 ∨ Comparer q.1 p.1 < 0

instance comparable_decidable (Comparer : COMPARER) :
    DecidableRel (comparable Comparer) := fun p q => by
  unfold comparable
  exact inferInstance

/-! ## States of an enumeration session -/

/-- The state in which the session `id` is active over the file list `L`
and the entries from its iterator on are the matching entries after the first
`d`. -/
def sessionAt (host : NameMatchHost) (expr : Option Name) (L : filelist_t)
    (id : GUID) (d : Nat) (st : ProviderState) : Prop :=
  st.gs_fileList = L ∧
    ∃ s, sessions_find id st.gs_activeEnumSessions = some s ∧
      matchingEntries host expr (L.drop s.it) = (matchingEntries host expr L).drop d

/-- A host whose names contain no wild cards and whose `wcsicmp` is the
lower-fold comparison, for concrete runs. -/
def plainHost : NameMatchHost :=
  { PrjDoesNameContainWildCards := fun _ => false
    PrjFileNameMatch := fun _ _ => true
    wcsicmp := PrjFileNameCompare towlower }

/-- The state after `ReproduceSortingBug` has filled the file list under
`NtfsFileNameCompare`, with no session open. -/
def sortingBug_state : ProviderState :=
  { gs_fileList := ReproduceSortingBug_fileList (NtfsFileNameCompare towupper)
    gs_activeEnumSessions := [] }

/-- The session table is in key order, as `std::map` keeps it. -/
def sessions_sorted (t : sessions_t) : Prop :=
  t.Pairwise (fun p q => p.1 < q.1)

instance sessions_sorted_decidable (t : sessions_t) : Decidable (sessions_sorted t) := by
  unfold sessions_sorted
  exact inferInstance

/-- The iterator of the session stored under `id`, if the session is active. -/
def sessionCursor (id : GUID) (st : ProviderState) : Option Nat :=
  (sessions_find id st.gs_activeEnumSessions).map (fun s => s.it)

/-- A data stream whose writes all succeed, for concrete runs. -/
def okWrite (sink : Unit) (_w : WriteCall) : HRESULT × Unit := (S_OK, sink)

/-- The state with the three files of `ReproduceSortingBug` and the session 7
parked at the second entry. -/
def midScan_state : ProviderState :=
  { gs_fileList := ReproduceSortingBug_fileList (NtfsFileNameCompare towupper)
    gs_activeEnumSessions := [(7, { fileName := [], it := 1, scanComplete := false })] }

/-! ## Further concrete data -/

/-- A data stream whose writes all fail with `E_UNEXPECTED`, for concrete
runs. -/
def failWrite (sink : Unit) (_w : WriteCall) : HRESULT × Unit := (E_UNEXPECTED, sink)

/-! ## Reading a materialized file (lines 286-316) -/

/-- One call of `ReadFile` as `MaterializeFile` sees it: whether the call
succeeded and the bytes it placed in the buffer (`readBytes` is their
number). -/
structure ReadResult where
  ok : Bool
  data : List Nat
  deriving DecidableEq, Repr

/-- The `while` loop of `MaterializeFile` (lines 306-310) over the successive
results of `ReadFile`: the loop runs while the call succeeds and has read
something; `crc` and `totalReadBytes` are the running values.  The result is
`none` when the listed results end before the loop does. -/
def MaterializeFile_loop : List ReadResult → Nat → Nat → Option (Nat × Nat)
  | [], _, _ => none
  | r :: rest, crc, totalReadBytes =>
    if r.ok && decide (r.data.length > 0) then
      MaterializeFile_loop rest (crc32 crc r.data)
        ((totalReadBytes + r.data.length) % 4294967296)
    else some (crc, totalReadBytes)

/-- The values `MaterializeFile` leaves in `crc` and `totalReadBytes`
(lines 303-310): both start at zero. -/
def MaterializeFile_crc (reads : List ReadResult) : Option (Nat × Nat) :=
  MaterializeFile_loop reads 0 0

/-- Successive chunks as successful `ReadFile` results, followed by the
result that reports the end of the file. -/
def readsOfChunks (chunks : List (List Nat)) : List ReadResult :=
  chunks.map (fun c => { ok := true, data := c }) ++ [{ ok := true, data := [] }]

/-! ## Folded names and lexicographic comparison -/

/-- The folded name: the fold of every code unit before the terminator. -/
def foldedName (fold : Nat → Nat) (s : Name) : List Nat :=
  (s.takeWhile (fun c => decide (c ≠ 0))).map fold

/-- Lexicographic comparison of two sequences of code units, a proper prefix
sorting first. -/
def lexCompare : List Nat → List Nat → Ordering
  | [], [] => Ordering.eq
  | [], _ :: _ => Ordering.lt
  | _ :: _, [] => Ordering.gt
  | x :: xs, y :: ys =>
    if x < y then Ordering.lt else if y < x then Ordering.gt else lexCompare xs ys

/-- The sign of the number a comparer returns. -/
def signOf (n : Int) : Ordering :=
  if n < 0 then Ordering.lt else if n = 0 then Ordering.eq else Ordering.gt

/-! ## Placeholder lookup (lines 178-195) -/

/-- `gs_fileList.find(key)` under the comparer: the search passes the keys
that sort before `key` and stops at the first that does not; that entry is
the result unless `key` sorts before it. -/
def filelist_find (Comparer : COMPARER) (key : Name) :
    filelist_t → Option (Name × PRJ_PLACEHOLDER_INFO)
  | [] => none
  | q :: rest =>
    if FileNameComparer Comparer q.1 key then filelist_find Comparer key rest
    else if FileNameComparer Comparer key q.1 then none
    else some q

/-- `GetPlaceholderInfoCallback` (lines 178-195).  `Comparer` is the active
`FileNameComparer::Comparer`, `writer` is `PrjWritePlaceholderInfo` on the
state `w` of the host, called with the destination name and the placeholder
record.  The status is `none` when the `VERIFY` fails and the process
exits. -/
def GetPlaceholderInfoCallback {σ : Type} (Comparer : COMPARER)
    (writer : σ → Name → PRJ_PLACEHOLDER_INFO → HRESULT × σ)
    (gs_fileList : filelist_t) (FilePathName : Name) (w : σ) : Option HRESULT × σ :=
  match filelist_find Comparer FilePathName gs_fileList with
  | none => (some (HRESULT_FROM_WIN32 ERROR_NOT_FOUND), w)
  | some q =>
    let r := writer w FilePathName q.2
    if SUCCEEDED r.1 then (some S_OK, r.2) else (none, r.2)

/-- A placeholder writer that records the calls it receives in order, on top
of a writer that decides the status of each call. -/
def recordPlaceholder {σ : Type} (writer : σ → Name → PRJ_PLACEHOLDER_INFO → HRESULT × σ)
    (w : σ × List (Name × PRJ_PLACEHOLDER_INFO)) (name : Name)
    (info : PRJ_PLACEHOLDER_INFO) : HRESULT × (σ × List (Name × PRJ_PLACEHOLDER_INFO)) :=
  ((writer w.1 name info).1, ((writer w.1 name info).2, w.2 ++ [(name, info)]))

/-- A placeholder writer that always succeeds, for concrete runs. -/
def okPlaceholder (w : Unit) (_name : Name) (_info : PRJ_PLACEHOLDER_INFO) : HRESULT × Unit :=
  (S_OK, w)

/-- A placeholder writer that always fails with `E_UNEXPECTED`, for concrete
runs. -/
def failPlaceholder (w : Unit) (_name : Name) (_info : PRJ_PLACEHOLDER_INFO) :
    HRESULT × Unit :=
  (E_UNEXPECTED, w)

/-- Two names are equivalent under the comparer when neither sorts before the
other. -/
def equivalentNames (Comparer : COMPARER) (a b : Name) : Prop :=
  ¬ Comparer a b < 0 ∧ ¬ Comparer b a < 0

instance equivalentNames_decidable (Comparer : COMPARER) (a b : Name) :
    Decidable (equivalentNames Comparer a b) := by
  unfold equivalentNames
  exact inferInstance

/-- A placeholder record that differs from `sortingBug_pi` in the file size. -/
def other_pi : PRJ_PLACEHOLDER_INFO :=
  { FileBasicInfo :=
      { IsDirectory := false
        FileSize := 7
        CreationTime := 0
        LastAccessTime := 0
        LastWriteTime := 0
        ChangeTime := 0
        FileAttributes := FILE_ATTRIBUTE_ARCHIVE } }

/-- The wide string `L"filea"`. -/
def name_filea : Name := [102, 105, 108, 101, 97]

/-- The wide string `L"FileC"`. -/
def name_FileC : Name := [70, 105, 108, 101, 67]

instance filelist_sorted_decidable (Comparer : COMPARER) (l : filelist_t) :
    Decidable (filelist_sorted Comparer l) := by
  unfold filelist_sorted
  exact inferInstance

/-! ## The read-only attribute test (lines 401-446) -/

def FILE_ATTRIBUTE_NORMAL : Nat := 128

def INVALID_FILE_ATTRIBUTES : Nat := 4294967295

/-- The condition of the `for` loop at line 429 on the value
`GetFileAttributes` returned: the value is valid and has the read-only bit. -/
def stillReadOnly (attr : Nat) : Bool :=
  decide (attr ≠ INVALID_FILE_ATTRIBUTES) && decide (attr &&& FILE_ATTRIBUTE_READONLY ≠ 0)

/-- One evaluation of the loop condition as the test sees it: the value
`GetFileAttributes` returns, and the answer of the `SetFileAttributes` call
that follows when the loop body runs. -/
structure AttrStep where
  attr : Nat
  setOk : Bool
  deriving DecidableEq, Repr

/-- The `for` loop of lines 429-432 over the successive steps, `retry` being
the counter.  The result is `some (some retry)` when the loop ends with that
counter, `some none` when `VERIFY(SetFileAttributes(...))` fails and the
process exits, and `none` when the listed steps end before the loop does. -/
def readOnlyLoop : List AttrStep → Nat → Option (Option Nat)
  | [], _ => none
  | s :: rest, retry =>
    if stillReadOnly s.attr then
      if s.setOk then readOnlyLoop rest (retry + 1) else some none
    else some (some retry)

/-- What the platform answers during one pass of the `while (1)` body
(lines 420-442): the result of `MaterializeFile`, the steps of the attribute
loop and the result of `VirtualizeFile`. -/
structure CycleTrace where
  materializeOk : Bool
  steps : List AttrStep
  virtualizeOk : Bool
  deriving DecidableEq, Repr

/-- How one pass of the `while (1)` body ends: a `VERIFY` fails and the
process exits, the function returns `true` (the race was observed), or the
file is virtualized again and the loop goes on. -/
inductive CycleResult where
  | exited
  | raceObserved
  | noRace
  deriving DecidableEq, Repr

/-- One pass of the `while (1)` body (lines 422-441); `none` when the listed
steps end before the attribute loop does. -/
def ReproduceRemoveReadOnlyFlag_cycle (t : CycleTrace) : Option CycleResult :=
  if !t.materializeOk then some CycleResult.exited
  else
    match readOnlyLoop t.steps 0 with
    | none => none
    | some none => some CycleResult.exited
    | some (some retry) =>
      if retry > 1 then some CycleResult.raceObserved
      else if !t.virtualizeOk then some CycleResult.exited
      else some CycleResult.noRace

/-- The `while (1)` loop of `ReproduceRemoveReadOnlyFlagNotReallyRemoved`
(lines 420-442) over the successive passes: `some (some true)` when the
function returns `true`, `some none` when the process exits at a `VERIFY`, and
`none` when the listed passes end with the loop still running. -/
def ReproduceRemoveReadOnlyFlagNotReallyRemoved : List CycleTrace → Option (Option Bool)
  | [] => none
  | t :: rest =>
    match ReproduceRemoveReadOnlyFlag_cycle t with
    | none => none
    | some CycleResult.exited => some none
    | some CycleResult.raceObserved => some (some true)
    | some CycleResult.noRace => ReproduceRemoveReadOnlyFlagNotReallyRemoved rest

/-- A pass in which the flag is restored once after the first clear: two
reads show read-only, the third shows a normal file. -/
def restoredOnce_cycle : CycleTrace :=
  { materializeOk := true
    steps :=
      [{ attr := FILE_ATTRIBUTE_READONLY ||| FILE_ATTRIBUTE_ARCHIVE, setOk := true },
       { attr := FILE_ATTRIBUTE_READONLY ||| FILE_ATTRIBUTE_ARCHIVE, setOk := true },
       { attr := FILE_ATTRIBUTE_NORMAL, setOk := true }]
    virtualizeOk := true }

/-- A pass in which the first clear sticks: one read shows read-only, the
second shows a normal file. -/
def neverRestored_cycle : CycleTrace :=
  { materializeOk := true
    steps :=
      [{ attr := FILE_ATTRIBUTE_READONLY ||| FILE_ATTRIBUTE_ARCHIVE, setOk := true },
       { attr := FILE_ATTRIBUTE_NORMAL, setOk := true }]
    virtualizeOk := true }

/-! ## The merge of two listings -/

/-- Modelled from the spec: the merge of the provider's listing with the
listing of the backing store is done by the host filter and is not in the
source.  This is the step of the merge for the head `x` of the first listing
against the second listing: the smaller head is emitted, or one copy when the
heads compare equal; `mergeRest` merges the rest of the first listing. -/
def linearMerge_head (cmp : COMPARER) (x : Name) (xs : List Name)
    (mergeRest : List Name → List Name) : List Name → List Name
  | [] => x :: xs
  | y :: ys =>
    if cmp x y < 0 then x :: mergeRest (y :: ys)
    else if cmp y x < 0 then y :: linearMerge_head cmp x xs mergeRest ys
    else x :: mergeRest ys

/-- Modelled from the spec: the host filter's single linear two-pointer pass
over two listings under the comparison `cmp`, which is not in the source. -/
def linearMerge (cmp : COMPARER) : List Name → List Name → List Name
  | [], ys => ys
  | x :: xs, ys => linearMerge_head cmp x xs (linearMerge cmp xs) ys

/-! # Theorems -/

/-! ## The comparator is a strict order -/

theorem NtfsFileNameCompare_nil (up : Nat → Nat) (ct : Name) :
    NtfsFileNameCompare up [] ct = (up 0 : Int) - (up (deref ct) : Int) := by
  unfold NtfsFileNameCompare
  split_ifs with h
  · rw [h]; simp
  · rfl

theorem NtfsFileNameCompare_self (up : Nat → Nat) (a : Name) :
    NtfsFileNameCompare up a a = 0 := by
  induction a with
  | nil => simp [NtfsFileNameCompare, deref]
  | cons x a ih => simp [NtfsFileNameCompare, deref, ih]

theorem NtfsFileNameCompare_trans (up : Nat → Nat)
    (hup : ∀ c, up c = up 0 → c = 0) (a b c : Name)
    (hab : NtfsFileNameCompare up a b < 0) (hbc : NtfsFileNameCompare up b c < 0) :
    NtfsFileNameCompare up a c < 0 := by
  induction a generalizing b c with
  | nil =>
    rw [NtfsFileNameCompare_nil] at hab ⊢
    cases b with
    | nil => simp [deref] at hab
    | cons y b =>
      simp only [deref] at hab
      unfold NtfsFileNameCompare at hbc
      split_ifs at hbc with h1 h2
      · omega
      · omega
      · omega
  | cons x a ih =>
    unfold NtfsFileNameCompare at hab ⊢
    by_cases hx : x = 0
    · subst hx
      simp only [if_true] at hab ⊢
      cases b with
      | nil => simp [deref] at hab
      | cons y b =>
        simp only [deref] at hab
        unfold NtfsFileNameCompare at hbc
        split_ifs at hab hbc ⊢ <;> omega
    · simp only [hx, if_false] at hab ⊢
      cases b with
      | nil =>
        rw [NtfsFileNameCompare_nil] at hbc
        simp only [deref] at hab
        split_ifs at hab with h1
        · exact absurd (hup x h1) hx
        · split_ifs with h2
          · omega
          · omega
      | cons y b =>
        simp only [deref, List.tail] at hab
        unfold NtfsFileNameCompare at hbc
        split_ifs at hab with h1
        · have hy : y ≠ 0 := by
            rintro rfl
            exact hx (hup x h1)
          simp only [hy, if_false] at hbc
          split_ifs at hbc with h3
          · have h4 : up x = up (deref c) := h1.trans h3
            rw [if_pos h4]
            exact ih _ _ hab hbc
          · have h4 : up x ≠ up (deref c) := by rw [h1]; exact h3
            rw [if_neg h4]; omega
        · split_ifs at hbc with h3 h4
          · omega
          · have h5 : up x ≠ up (deref c) := by omega
            rw [if_neg h5]; omega
          · have h5 : up x ≠ up (deref c) := by omega
            rw [if_neg h5]; omega

theorem towupper_zero (c : Nat) (h : towupper c = towupper 0) : c = 0 := by
  unfold towupper at h
  split_ifs at h <;> omega


/-! ## The file list is sorted and insertion is order independent -/

theorem filelist_insert_mem (Comparer : COMPARER) (p q : Name × PRJ_PLACEHOLDER_INFO)
    (l : filelist_t) (h : q ∈ filelist_insert Comparer p l) : q = p ∨ q ∈ l := by
  induction l with
  | nil => simpa [filelist_insert] using h
  | cons r l ih =>
    unfold filelist_insert at h
    split_ifs at h with h1 h2
    · simpa using h
    · rcases List.mem_cons.1 h with h | h
      · exact Or.inr (h ▸ List.mem_cons_self _ _)
      · rcases ih h with h | h
        · exact Or.inl h
        · exact Or.inr (List.mem_cons_of_mem _ h)
    · exact Or.inr h

theorem filelist_insert_sorted (Comparer : COMPARER)
    (htrans : ∀ a b c, Comparer a b < 0 → Comparer b c < 0 → Comparer a c < 0)
    (p : Name × PRJ_PLACEHOLDER_INFO) (l : filelist_t)
    (hl : filelist_sorted Comparer l) :
    filelist_sorted Comparer (filelist_insert Comparer p l) := by
  induction l with
  | nil => simp [filelist_insert, filelist_sorted]
  | cons r l ih =>
    unfold filelist_sorted at hl ih ⊢
    rw [List.pairwise_cons] at hl
    unfold filelist_insert
    split_ifs with h1 h2
    · have h1' : Comparer p.1 r.1 < 0 := by simpa [FileNameComparer] using h1
      refine List.pairwise_cons.2 ⟨?_, List.pairwise_cons.2 hl⟩
      intro q hq
      rcases List.mem_cons.1 hq with rfl | hq
      · exact h1'
      · exact htrans _ _ _ h1' (hl.1 q hq)
    · have h2' : Comparer r.1 p.1 < 0 := by simpa [FileNameComparer] using h2
      refine List.pairwise_cons.2 ⟨?_, ih hl.2⟩
      intro q hq
      rcases filelist_insert_mem Comparer p q l hq with rfl | hq
      · exact h2'
      · exact hl.1 q hq
    · exact List.pairwise_cons.2 hl

theorem filelist_insert_perm (Comparer : COMPARER)
    (p : Name × PRJ_PLACEHOLDER_INFO) (l : filelist_t)
    (hp : ∀ q ∈ l, comparable Comparer p q) :
    (filelist_insert Comparer p l).Perm (p :: l) := by
  induction l with
  | nil => simp [filelist_insert]
  | cons r l ih =>
    unfold filelist_insert
    split_ifs with h1 h2
    · exact List.Perm.refl _
    · exact ((ih (fun q hq => hp q (List.mem_cons_of_mem _ hq))).cons r).trans
        (List.Perm.swap p r l)
    · exfalso
      rcases hp r (List.mem_cons_self _ _) with h | h
      · exact h1 (by simpa [FileNameComparer] using h)
      · exact h2 (by simpa [FileNameComparer] using h)

theorem comparable_symm (Comparer : COMPARER) (p q : Name × PRJ_PLACEHOLDER_INFO)
    (h : comparable Comparer p q) : comparable Comparer q p := Or.symm h

theorem filelist_insertAll_perm_sorted (Comparer : COMPARER)
    (htrans : ∀ a b c, Comparer a b < 0 → Comparer b c < 0 → Comparer a c < 0)
    (ps : List (Name × PRJ_PLACEHOLDER_INFO)) (l : filelist_t)
    (hl : filelist_sorted Comparer l)
    (hcmp : (l ++ ps).Pairwise (comparable Comparer)) :
    (filelist_insertAll Comparer ps l).Perm (l ++ ps) ∧
      filelist_sorted Comparer (filelist_insertAll Comparer ps l) := by
  induction ps generalizing l with
  | nil => simpa [filelist_insertAll] using hl
  | cons p ps ih =>
    have hsymm : ∀ {x y : Name × PRJ_PLACEHOLDER_INFO},
        comparable Comparer x y → comparable Comparer y x :=
      fun h => comparable_symm Comparer _ _ h
    have hpl : ∀ q ∈ l, comparable Comparer p q := by
      intro q hq
      exact hsymm ((List.pairwise_append.1 hcmp).2.2 q hq p (List.mem_cons_self _ _))
    have hperm := filelist_insert_perm Comparer p l hpl
    have hperm2 : (filelist_insert Comparer p l ++ ps).Perm (l ++ p :: ps) :=
      (hperm.append_right ps).trans (List.perm_middle.symm)
    have hcmp2 : (filelist_insert Comparer p l ++ ps).Pairwise (comparable Comparer) :=
      (hperm2.pairwise_iff hsymm).2 hcmp
    have h := ih (filelist_insert Comparer p l)
      (filelist_insert_sorted Comparer htrans p l hl) hcmp2
    exact ⟨h.1.trans hperm2, h.2⟩

theorem filelist_sorted_perm_eq (Comparer : COMPARER)
    (hirr : ∀ a, ¬ Comparer a a < 0)
    (htrans : ∀ a b c, Comparer a b < 0 → Comparer b c < 0 → Comparer a c < 0)
    (l₁ l₂ : filelist_t) (h₁ : filelist_sorted Comparer l₁)
    (h₂ : filelist_sorted Comparer l₂) (hperm : l₁.Perm l₂) : l₁ = l₂ := by
  haveI : IsAntisymm (Name × PRJ_PLACEHOLDER_INFO) (fun p q => Comparer p.1 q.1 < 0) :=
    ⟨fun p q hpq hqp => absurd (htrans _ _ _ hpq hqp) (hirr _)⟩
  exact List.eq_of_perm_of_sorted hperm h₁ h₂

/-- When no two of the inserted names are equivalent under the comparer, the
two insertion orders yield the same file list, entries included. -/
theorem insertion_order_independent_store (Comparer : COMPARER)
    (hirr : ∀ a, ¬ Comparer a a < 0)
    (htrans : ∀ a b c, Comparer a b < 0 → Comparer b c < 0 → Comparer a c < 0)
    (ps qs : List (Name × PRJ_PLACEHOLDER_INFO)) (hperm : ps.Perm qs)
    (hdist : ps.Pairwise (comparable Comparer)) :
    filelist_insertAll Comparer ps [] = filelist_insertAll Comparer qs [] ∧
      filelist_names (filelist_insertAll Comparer ps []) =
        filelist_names (filelist_insertAll Comparer qs []) := by
  have hdist2 : qs.Pairwise (comparable Comparer) :=
    (hperm.pairwise_iff (fun h => comparable_symm Comparer _ _ h)).1 hdist
  have hp := filelist_insertAll_perm_sorted Comparer htrans ps []
    List.Pairwise.nil (by simpa using hdist)
  have hq := filelist_insertAll_perm_sorted Comparer htrans qs []
    List.Pairwise.nil (by simpa using hdist2)
  have heq : filelist_insertAll Comparer ps [] = filelist_insertAll Comparer qs [] := by
    apply filelist_sorted_perm_eq Comparer hirr htrans _ _ hp.2 hq.2
    have h1 : (filelist_insertAll Comparer ps []).Perm ps := by simpa using hp.1
    have h2 : (filelist_insertAll Comparer qs []).Perm qs := by simpa using hq.1
    exact h1.trans (hperm.trans h2.symm)
  exact ⟨heq, by rw [heq]⟩

theorem filelist_insertAll_sorted (Comparer : COMPARER)
    (htrans : ∀ a b c, Comparer a b < 0 → Comparer b c < 0 → Comparer a c < 0)
    (ps : List (Name × PRJ_PLACEHOLDER_INFO)) (l : filelist_t)
    (hl : filelist_sorted Comparer l) :
    filelist_sorted Comparer (filelist_insertAll Comparer ps l) := by
  induction ps generalizing l with
  | nil => exact hl
  | cons p ps ih => exact ih _ (filelist_insert_sorted Comparer htrans p l hl)

/-- The names after one insertion, when the only names of the list equivalent
to the new name are equal to it. -/
theorem filelist_insert_names_mem (Comparer : COMPARER)
    (p : Name × PRJ_PLACEHOLDER_INFO) (l : filelist_t)
    (hp : ∀ q ∈ l, ¬ Comparer p.1 q.1 < 0 → ¬ Comparer q.1 p.1 < 0 → p.1 = q.1)
    (n : Name) :
    n ∈ filelist_names (filelist_insert Comparer p l) ↔ n = p.1 ∨ n ∈ filelist_names l := by
  induction l with
  | nil => simp [filelist_insert, filelist_names]
  | cons q l ih =>
    have ih' := ih (fun r hr => hp r (List.mem_cons_of_mem _ hr))
    unfold filelist_names at ih' ⊢
    unfold filelist_insert
    split_ifs with h1 h2
    · simp
    · rw [List.map_cons, List.mem_cons, ih', List.map_cons, List.mem_cons]
      tauto
    · have h1' : ¬ Comparer p.1 q.1 < 0 := by simpa [FileNameComparer] using h1
      have h2' : ¬ Comparer q.1 p.1 < 0 := by simpa [FileNameComparer] using h2
      have hpq := hp q (List.mem_cons_self _ _) h1' h2'
      rw [List.map_cons, List.mem_cons, hpq]
      tauto

/-- The names after a sequence of insertions are the names already present
and the names inserted. -/
theorem filelist_insertAll_names_mem (Comparer : COMPARER)
    (ps : List (Name × PRJ_PLACEHOLDER_INFO)) (l : filelist_t)
    (h : ∀ p ∈ l ++ ps, ∀ q ∈ l ++ ps,
      ¬ Comparer p.1 q.1 < 0 → ¬ Comparer q.1 p.1 < 0 → p.1 = q.1)
    (n : Name) :
    n ∈ filelist_names (filelist_insertAll Comparer ps l) ↔
      n ∈ filelist_names l ∨ n ∈ filelist_names ps := by
  induction ps generalizing l with
  | nil => simp [filelist_insertAll, filelist_names]
  | cons p ps ih =>
    have hmem : ∀ r, r ∈ filelist_insert Comparer p l ++ ps → r ∈ l ++ p :: ps := by
      intro r hr
      rcases List.mem_append.1 hr with hr | hr
      · rcases filelist_insert_mem Comparer p r l hr with rfl | hr
        · simp
        · simp [hr]
      · simp [hr]
    have h2 := ih (filelist_insert Comparer p l)
      (fun a ha b hb => h a (hmem a ha) b (hmem b hb))
    have h3 := filelist_insert_names_mem Comparer p l
      (fun q hq => h p (by simp) q (by simp [hq])) n
    have h4 : filelist_insertAll Comparer (p :: ps) l =
        filelist_insertAll Comparer ps (filelist_insert Comparer p l) := rfl
    rw [h4, h2, h3]
    simp only [filelist_names, List.map_cons, List.mem_cons]
    tauto

/-- C4 (amended): when any two of the inserted names that are equivalent
under the comparer (neither sorts before the other) are the same name,
inserting the pairs into an empty file list in one order and in any permuted
order yields the same sequence of names on iteration.  The comparer is any
strict order (irreflexive and transitive), as the container requires. -/
theorem insertion_order_independent (Comparer : COMPARER)
    (hirr : ∀ a, ¬ Comparer a a < 0)
    (htrans : ∀ a b c, Comparer a b < 0 → Comparer b c < 0 → Comparer a c < 0)
    (ps qs : List (Name × PRJ_PLACEHOLDER_INFO)) (hperm : ps.Perm qs)
    (hdist : ∀ p ∈ ps, ∀ q ∈ ps,
      ¬ Comparer p.1 q.1 < 0 → ¬ Comparer q.1 p.1 < 0 → p.1 = q.1) :
    filelist_names (filelist_insertAll Comparer ps []) =
      filelist_names (filelist_insertAll Comparer qs []) := by
  have hdist2 : ∀ p ∈ qs, ∀ q ∈ qs,
      ¬ Comparer p.1 q.1 < 0 → ¬ Comparer q.1 p.1 < 0 → p.1 = q.1 :=
    fun p hp q hq => hdist p (hperm.mem_iff.2 hp) q (hperm.mem_iff.2 hq)
  have hsp : (filelist_names (filelist_insertAll Comparer ps [])).Pairwise
      (fun a b => Comparer a b < 0) :=
    List.pairwise_map.2 (filelist_insertAll_sorted Comparer htrans ps [] List.Pairwise.nil)
  have hsq : (filelist_names (filelist_insertAll Comparer qs [])).Pairwise
      (fun a b => Comparer a b < 0) :=
    List.pairwise_map.2 (filelist_insertAll_sorted Comparer htrans qs [] List.Pairwise.nil)
  have hne : ∀ a b : Name, Comparer a b < 0 → a ≠ b := by
    intro a b hab heq
    rw [heq] at hab
    exact hirr b hab
  have hmem : ∀ n, n ∈ filelist_names (filelist_insertAll Comparer ps []) ↔
      n ∈ filelist_names (filelist_insertAll Comparer qs []) := by
    intro n
    rw [filelist_insertAll_names_mem Comparer ps [] (by simpa using hdist) n,
      filelist_insertAll_names_mem Comparer qs [] (by simpa using hdist2) n]
    simp only [filelist_names, List.map_nil, List.not_mem_nil, false_or]
    exact (hperm.map Prod.fst).mem_iff
  have hp : (filelist_names (filelist_insertAll Comparer ps [])).Perm
      (filelist_names (filelist_insertAll Comparer qs [])) :=
    (List.perm_ext_iff_of_nodup (hsp.imp (fun h => hne _ _ h))
      (hsq.imp (fun h => hne _ _ h))).2 hmem
  haveI : IsAntisymm Name (fun a b => Comparer a b < 0) :=
    ⟨fun a b hab hba => absurd (htrans _ _ _ hab hba) (hirr _)⟩
  exact List.eq_of_perm_of_sorted hp hsp hsq

/-- Witness for C4: the three names of `ReproduceSortingBug`, one of them
inserted twice, in two orders under `NtfsFileNameCompare`. -/
theorem insertion_order_independent_witness :
    filelist_names (filelist_insertAll (NtfsFileNameCompare towupper)
        [(name_FileA, sortingBug_pi), (name_File_, sortingBug_pi), (name_FileA, sortingBug_pi),
          (name_Fileb, sortingBug_pi)] []) =
      filelist_names (filelist_insertAll (NtfsFileNameCompare towupper)
        [(name_Fileb, sortingBug_pi), (name_FileA, sortingBug_pi), (name_FileA, sortingBug_pi),
          (name_File_, sortingBug_pi)] []) :=
  insertion_order_independent (NtfsFileNameCompare towupper)
    (fun a h => by rw [NtfsFileNameCompare_self] at h; exact absurd h (by decide))
    (NtfsFileNameCompare_trans towupper towupper_zero)
    _ _
    (by decide)
    (by decide)

/-- C4 (counterexample): two names that differ only in case are equivalent
under `NtfsFileNameCompare`; the file list keeps whichever is inserted first,
so the two insertion orders of `a` and `A` iterate different names. -/
theorem insertion_order_counterexample :
    ¬ (∀ ps qs : List (Name × PRJ_PLACEHOLDER_INFO), ps.Perm qs →
        filelist_names (filelist_insertAll (NtfsFileNameCompare towupper) ps []) =
          filelist_names (filelist_insertAll (NtfsFileNameCompare towupper) qs [])) := by
  intro h
  have h1 := h [([97], sortingBug_pi), ([65], sortingBug_pi)]
    [([65], sortingBug_pi), ([97], sortingBug_pi)] (List.Perm.swap _ _ _)
  revert h1
  decide

/-! ## The session table -/

theorem GUID_equiv_iff (a b : GUID) :
    (!GUIDComparer a b && !GUIDComparer b a) = true ↔ a = b := by
  simp only [GUIDComparer, Bool.and_eq_true, Bool.not_eq_true', decide_eq_false_iff_not,
    not_lt]
  exact ⟨fun h => Nat.le_antisymm h.2 h.1, fun h => h ▸ ⟨Nat.le_refl _, Nat.le_refl _⟩⟩

theorem sessions_find_assign (id : GUID) (s : DirEnumSession) (t : sessions_t) :
    sessions_find id (sessions_assign id s t) = some s := by
  induction t with
  | nil => simp [sessions_assign, sessions_find, GUIDComparer]
  | cons p t ih =>
    unfold sessions_assign
    split_ifs with h1 h2
    · simp [sessions_find, GUIDComparer]
    · have h3 : p.1 < id := by simpa [GUIDComparer] using h2
      have h4 : (!GUIDComparer p.1 id && !GUIDComparer id p.1) = false := by
        simp [GUIDComparer, h3]
      rw [sessions_find, h4]
      simpa using ih
    · have h3 : ¬ id < p.1 := by simpa [GUIDComparer] using h1
      have h4 : ¬ p.1 < id := by simpa [GUIDComparer] using h2
      have h5 : p.1 = id := Nat.le_antisymm (Nat.not_lt.1 h3) (Nat.not_lt.1 h4)
      simp only [sessions_find]
      rw [if_pos ((GUID_equiv_iff _ _).2 h5)]

theorem sessions_find_store (id : GUID) (s s0 : DirEnumSession) (t : sessions_t)
    (h : sessions_find id t = some s0) :
    sessions_find id (sessions_store id s t) = some s := by
  induction t with
  | nil => simp [sessions_find] at h
  | cons p t ih =>
    unfold sessions_store
    unfold sessions_find at h
    split_ifs at h ⊢ with h1
    · simp only [sessions_find]
      rw [if_pos h1]
    · rw [sessions_find, if_neg h1]
      exact ih h

/-! ## Enumeration into a buffer of bounded capacity -/

theorem FAILED_insufficient_buffer :
    FAILED (HRESULT_FROM_WIN32 ERROR_INSUFFICIENT_BUFFER) = true := by decide

theorem HRESULT_CODE_insufficient_buffer :
    HRESULT_CODE (HRESULT_FROM_WIN32 ERROR_INSUFFICIENT_BUFFER) = ERROR_INSUFFICIENT_BUFFER := by
  decide

theorem matchingEntries_cons_skipped (host : NameMatchHost) (expr : Option Name)
    (e : Name × PRJ_PLACEHOLDER_INFO) (l : filelist_t)
    (h : entrySkipped host expr e.1 = true) :
    matchingEntries host expr (e :: l) = matchingEntries host expr l := by
  simp [matchingEntries, List.filter_cons, h]

theorem matchingEntries_cons_kept (host : NameMatchHost) (expr : Option Name)
    (e : Name × PRJ_PLACEHOLDER_INFO) (l : filelist_t)
    (h : ¬ entrySkipped host expr e.1 = true) :
    matchingEntries host expr (e :: l) =
      (e.1, e.2.FileBasicInfo) :: matchingEntries host expr l := by
  simp [matchingEntries, List.filter_cons, h]

/-- One pass of the loop into a buffer of capacity `C` that already holds
`buf`: the status is `S_OK`, the buffer is topped up with the next matching
entries, and the entries from the new iterator on are the matching entries not
yet delivered. -/
theorem dirEnumLoop_capacity (host : NameMatchHost) (C : Nat) (expr : Option Name)
    (l : filelist_t) (it : Nat) (buf : List DirEntry) (hbuf : buf.length ≤ C) :
    ∃ n, n ≤ l.length ∧
      dirEnumLoop host (capacityFill C) expr l it buf =
        (S_OK, it + n, buf ++ (matchingEntries host expr l).take (C - buf.length)) ∧
      matchingEntries host expr (l.drop n) =
        (matchingEntries host expr l).drop (C - buf.length) := by
  induction l generalizing it buf with
  | nil => exact ⟨0, by simp [dirEnumLoop, matchingEntries]⟩
  | cons e l ih =>
    by_cases hs : entrySkipped host expr e.1 = true
    · obtain ⟨n, hn, h1, h2⟩ := ih (it + 1) buf hbuf
      refine ⟨n + 1, by simpa using hn, ?_, ?_⟩
      · rw [dirEnumLoop, if_pos hs, h1, matchingEntries_cons_skipped host expr e l hs]
        simp [Nat.add_assoc, Nat.add_comm 1 n]
      · rw [matchingEntries_cons_skipped host expr e l hs]
        simpa using h2
    · rw [matchingEntries_cons_kept host expr e l hs]
      by_cases hfull : buf.length < C
      · have hlen : (buf ++ [(e.1, e.2.FileBasicInfo)]).length ≤ C := by
          simp; omega
        obtain ⟨n, hn, h1, h2⟩ := ih (it + 1) (buf ++ [(e.1, e.2.FileBasicInfo)]) hlen
        have hC : C - buf.length = (C - (buf.length + 1)) + 1 := by omega
        refine ⟨n + 1, by simpa using hn, ?_, ?_⟩
        · rw [dirEnumLoop, if_neg hs]
          simp only [capacityFill, if_pos hfull]
          have hnf : FAILED S_OK = false := by decide
          simp only [hnf]
          rw [if_neg (by simp), h1, hC]
          simp [Nat.add_assoc, Nat.add_comm 1 n]
        · rw [hC]
          simpa using h2
      · have hC : C - buf.length = 0 := by omega
        refine ⟨0, by simp, ?_, ?_⟩
        · rw [dirEnumLoop, if_neg hs]
          simp only [capacityFill, if_neg hfull, FAILED_insufficient_buffer,
            HRESULT_CODE_insufficient_buffer, if_true, hC]
          simp
        · rw [hC]
          simp [matchingEntries_cons_kept host expr e l hs]

/-- One call with a fresh buffer of capacity `C` on a session that has
delivered `d` matching entries: it returns `S_OK`, delivers the next `C`
matching entries and leaves the session at `d + C`. -/
theorem GetDirEnumCallback_capacity (host : NameMatchHost) (C : Nat) (expr : Option Name)
    (L : filelist_t) (id : GUID) (d : Nat) (st : ProviderState)
    (h : sessionAt host expr L id d st) :
    (GetDirEnumCallback host (capacityFill C) st 0 id expr []).1 = S_OK ∧
    (GetDirEnumCallback host (capacityFill C) st 0 id expr []).2.2 =
      ((matchingEntries host expr L).drop d).take C ∧
    sessionAt host expr L id (d + C)
      (GetDirEnumCallback host (capacityFill C) st 0 id expr []).2.1 := by
  obtain ⟨hL, s, hs, hm⟩ := h
  obtain ⟨n, _, h1, h2⟩ :=
    dirEnumLoop_capacity host C expr (L.drop s.it) s.it [] (Nat.zero_le _)
  have hflag : ¬ (0 &&& PRJ_CB_DATA_FLAG_ENUM_RESTART_SCAN ≠ 0) := by decide
  simp only [GetDirEnumCallback, hs, hL, if_neg hflag, h1]
  refine ⟨trivial, ?_, rfl, ?_⟩
  · simp [hm]
  · refine ⟨_, sessions_find_store id _ s _ hs, ?_⟩
    simp only
    rw [← List.drop_drop, h2, hm]
    simp [List.drop_drop, Nat.add_comm]

/-- Any number of calls in a row on a session that has delivered `d` matching
entries. -/
theorem fetchCalls_capacity (host : NameMatchHost) (C : Nat) (expr : Option Name)
    (L : filelist_t) (id : GUID) (k d : Nat) (st : ProviderState)
    (h : sessionAt host expr L id d st) :
    ((fetchCalls host C id expr k st).1.map Prod.snd).flatten =
        ((matchingEntries host expr L).drop d).take (k * C) ∧
      (∀ x ∈ (fetchCalls host C id expr k st).1, x.1 = S_OK) ∧
      (fetchCalls host C id expr k st).1.length = k ∧
      sessionAt host expr L id (d + k * C) (fetchCalls host C id expr k st).2 := by
  induction k generalizing d st with
  | zero => simpa [fetchCalls] using h
  | succ k ih =>
    obtain ⟨h1, h2, h3⟩ := GetDirEnumCallback_capacity host C expr L id d st h
    obtain ⟨i1, i2, i3, i4⟩ := ih (d + C) _ h3
    simp only [fetchCalls]
    refine ⟨?_, ?_, by simp [i3], ?_⟩
    · simp only [List.map_cons, List.flatten_cons, i1, h2]
      rw [Nat.succ_mul, Nat.add_comm (k * C) C, List.take_add, List.drop_drop]
    · intro x hx
      rcases List.mem_cons.1 hx with rfl | hx
      · exact h1
      · exact i2 x hx
    · have : d + (k + 1) * C = d + C + k * C := by rw [Nat.succ_mul]; omega
      rw [this]
      exact i4

theorem sessionAt_start (host : NameMatchHost) (expr : Option Name)
    (st0 : ProviderState) (path : Name) (id : GUID) :
    sessionAt host expr st0.gs_fileList id 0 (StartDirEnumCallback st0 path id).2 := by
  refine ⟨rfl, DirEnumSession_new path, ?_, ?_⟩
  · simp [StartDirEnumCallback, sessions_find_assign]
  · simp [DirEnumSession_new]

theorem ceil_mul_ge (N C : Nat) (hC : 1 ≤ C) : N ≤ (N + C - 1) / C * C := by
  have h1 := Nat.div_add_mod (N + C - 1) C
  have h2 := Nat.mod_lt (N + C - 1) (show C > 0 from hC)
  rw [Nat.mul_comm] at h1
  omega

theorem below_ceil_mul_lt (N C j : Nat) (hj : j < (N + C - 1) / C) : j * C < N := by
  rcases Nat.eq_zero_or_pos C with hC | hC
  · subst hC; simp at hj
  · have h1 : (j + 1) * C ≤ N + C - 1 := by
      have := (Nat.le_div_iff_mul_le hC).1 (Nat.succ_le_of_lt hj)
      simpa using this
    rw [Nat.succ_mul] at h1
    omega

/-- The matching entries keep the order of the file list. -/
theorem matchingEntries_sorted (host : NameMatchHost) (expr : Option Name)
    (Comparer : COMPARER) (l : filelist_t) (hl : filelist_sorted Comparer l) :
    (matchingEntries host expr l).Pairwise (fun a b => Comparer a.1 b.1 < 0) := by
  unfold matchingEntries
  rw [List.pairwise_map]
  exact List.Pairwise.sublist (List.filter_sublist _) hl

/-- C1: pagination.  From a freshly started session, calling
`GetDirEnumCallback` repeatedly without the restart flag, each time with an
empty buffer that accepts `C ≥ 1` entries and then reports
`ERROR_INSUFFICIENT_BUFFER`: the entries accepted over the first `ceil(N/C)`
calls, concatenated, are exactly the `N` matching entries of the file list in
its iteration order; each of these calls returns `S_OK`; any further call
returns `S_OK` and delivers nothing; fewer calls deliver only a proper prefix
(the first `j * C` matching entries); and the matching entries are sorted by
name under every comparer the file list is sorted under. -/
theorem pagination (host : NameMatchHost) (st0 : ProviderState) (path : Name)
    (id : GUID) (expr : Option Name) (C : Nat) (hC : 1 ≤ C) :
    ((fetchCalls host C id expr
        (((matchingEntries host expr st0.gs_fileList).length + C - 1) / C)
        (StartDirEnumCallback st0 path id).2).1.map Prod.snd).flatten =
      matchingEntries host expr st0.gs_fileList ∧
    (∀ x ∈ (fetchCalls host C id expr
        (((matchingEntries host expr st0.gs_fileList).length + C - 1) / C)
        (StartDirEnumCallback st0 path id).2).1, x.1 = S_OK) ∧
    (∀ m, ∀ x ∈ (fetchCalls host C id expr m
        (fetchCalls host C id expr
          (((matchingEntries host expr st0.gs_fileList).length + C - 1) / C)
          (StartDirEnumCallback st0 path id).2).2).1, x = (S_OK, [])) ∧
    (∀ j, j < ((matchingEntries host expr st0.gs_fileList).length + C - 1) / C →
      ((fetchCalls host C id expr j (StartDirEnumCallback st0 path id).2).1.map
          Prod.snd).flatten = (matchingEntries host expr st0.gs_fileList).take (j * C) ∧
        j * C < (matchingEntries host expr st0.gs_fileList).length) ∧
    (∀ Comparer : COMPARER, filelist_sorted Comparer st0.gs_fileList →
      (matchingEntries host expr st0.gs_fileList).Pairwise
        (fun a b => Comparer a.1 b.1 < 0)) := by
  have hstart := sessionAt_start host expr st0 path id
  have hk := fetchCalls_capacity host C expr st0.gs_fileList id
    (((matchingEntries host expr st0.gs_fileList).length + C - 1) / C) 0 _ hstart
  have hge := ceil_mul_ge (matchingEntries host expr st0.gs_fileList).length C hC
  refine ⟨?_, hk.2.1, ?_, ?_, fun Comparer hs => matchingEntries_sorted host expr Comparer _ hs⟩
  · rw [hk.1, List.drop_zero, List.take_of_length_le hge]
  · intro m x hx
    have hm := fetchCalls_capacity host C expr st0.gs_fileList id m _ _ hk.2.2.2
    have hdrop : List.drop
        (0 + ((matchingEntries host expr st0.gs_fileList).length + C - 1) / C * C)
        (matchingEntries host expr st0.gs_fileList) = [] := by
      apply List.drop_of_length_le
      omega
    have hnil : ∀ y ∈ (fetchCalls host C id expr m
        (fetchCalls host C id expr
          (((matchingEntries host expr st0.gs_fileList).length + C - 1) / C)
          (StartDirEnumCallback st0 path id).2).2).1.map Prod.snd, y = [] := by
      have h1 := hm.1
      rw [hdrop, List.take_nil] at h1
      exact List.flatten_eq_nil_iff.1 h1
    have hx2 : x.2 = [] := hnil x.2 (List.mem_map_of_mem _ hx)
    have hx1 : x.1 = S_OK := hm.2.1 x hx
    exact Prod.ext hx1 hx2
  · intro j hj
    have hjk := fetchCalls_capacity host C expr st0.gs_fileList id j 0 _ hstart
    refine ⟨?_, below_ceil_mul_lt _ C j hj⟩
    rw [hjk.1, List.drop_zero]

/-- Witness for C1: the three files of `ReproduceSortingBug`, a buffer of two
entries and no search expression. -/
theorem pagination_witness :
    1 ≤ 2 ∧
    ((fetchCalls plainHost 2 7 none
        (((matchingEntries plainHost none sortingBug_state.gs_fileList).length + 2 - 1) / 2)
        (StartDirEnumCallback sortingBug_state [] 7).2).1.map Prod.snd).flatten =
      matchingEntries plainHost none sortingBug_state.gs_fileList :=
  ⟨by decide, (pagination plainHost sortingBug_state [] 7 none 2 (by decide)).1⟩

/-! ## Enumeration into a buffer that accepts everything -/

theorem dirEnumLoop_accept (host : NameMatchHost) (expr : Option Name)
    (l : filelist_t) (it : Nat) (buf : List DirEntry) :
    dirEnumLoop host acceptFill expr l it buf =
      (S_OK, it + l.length, buf ++ matchingEntries host expr l) := by
  induction l generalizing it buf with
  | nil => simp [dirEnumLoop, matchingEntries]
  | cons e l ih =>
    by_cases hs : entrySkipped host expr e.1 = true
    · rw [dirEnumLoop, if_pos hs, ih, matchingEntries_cons_skipped host expr e l hs]
      simp [Nat.add_assoc, Nat.add_comm 1]
    · have hnf : FAILED S_OK = false := by decide
      rw [dirEnumLoop, if_neg hs]
      simp only [acceptFill, hnf]
      rw [if_neg (by simp), ih, matchingEntries_cons_kept host expr e l hs]
      simp [Nat.add_assoc, Nat.add_comm 1]

theorem entrySkipped_empty (host : NameMatchHost)
    (hw : host.PrjDoesNameContainWildCards [] = false) (expr : Option Name)
    (hexpr : expr = none ∨ expr = some []) (name : Name) :
    entrySkipped host expr name = false := by
  rcases hexpr with rfl | rfl
  · simp [entrySkipped, wildCards]
  · simp [entrySkipped, wildCards, hw, deref]

theorem matchingEntries_empty (host : NameMatchHost)
    (hw : host.PrjDoesNameContainWildCards [] = false) (expr : Option Name)
    (hexpr : expr = none ∨ expr = some []) (l : filelist_t) :
    matchingEntries host expr l = l.map (fun e => (e.1, e.2.FileBasicInfo)) := by
  simp [matchingEntries, entrySkipped_empty host hw expr hexpr]

/-- A full enumeration: the session is started and one call is made with a
buffer that accepts every entry. -/
theorem fullEnumeration (host : NameMatchHost) (st0 : ProviderState) (path : Name)
    (id : GUID) (Flags : Nat) (expr : Option Name) :
    (GetDirEnumCallback host acceptFill (StartDirEnumCallback st0 path id).2 Flags id
        expr []).1 = S_OK ∧
    (GetDirEnumCallback host acceptFill (StartDirEnumCallback st0 path id).2 Flags id
        expr []).2.2 = matchingEntries host expr st0.gs_fileList := by
  have hfind : sessions_find id (StartDirEnumCallback st0 path id).2.gs_activeEnumSessions =
      some (DirEnumSession_new path) := by
    simp [StartDirEnumCallback, sessions_find_assign]
  have hlist : (StartDirEnumCallback st0 path id).2.gs_fileList = st0.gs_fileList := rfl
  simp only [GetDirEnumCallback, hfind, hlist, DirEnumSession_new, ite_self, List.drop_zero,
    dirEnumLoop_accept, List.nil_append, and_self]

theorem ReproduceSortingBug_fileList_ntfs (up : Nat → Nat)
    (hup : ∀ c, c < 128 → up c = towupper c) :
    filelist_names (ReproduceSortingBug_fileList (NtfsFileNameCompare up)) =
      [name_FileA, name_Fileb, name_File_] := by
  simp [filelist_names, ReproduceSortingBug_fileList, filelist_insertAll, filelist_insert,
    FileNameComparer, NtfsFileNameCompare, name_FileA, name_File_, name_Fileb, deref, hup,
    towupper]

theorem ReproduceSortingBug_fileList_prj (low : Nat → Nat)
    (hlow : ∀ c, c < 128 → low c = towlower c) :
    filelist_names (ReproduceSortingBug_fileList (PrjFileNameCompare low)) =
      [name_File_, name_FileA, name_Fileb] := by
  simp [filelist_names, ReproduceSortingBug_fileList, filelist_insertAll, filelist_insert,
    FileNameComparer, PrjFileNameCompare, name_FileA, name_File_, name_Fileb, deref, hlow,
    towlower]

/-- C2: scenario B.  With the file list ordered by `NtfsFileNameCompare`, for
any fold that agrees with `towupper` on the ASCII range, and filled as
`ReproduceSortingBug` does, a full enumeration with an absent or empty search
expression returns `S_OK` and delivers the names in the order `FileA`, `Fileb`,
`File_`. -/
theorem scenarioB_order (up : Nat → Nat) (hup : ∀ c, c < 128 → up c = towupper c)
    (host : NameMatchHost) (hw : host.PrjDoesNameContainWildCards [] = false)
    (sessions : sessions_t) (path : Name) (id : GUID) (Flags : Nat)
    (expr : Option Name) (hexpr : expr = none ∨ expr = some []) :
    (GetDirEnumCallback host acceptFill
        (StartDirEnumCallback
          { gs_fileList := ReproduceSortingBug_fileList (NtfsFileNameCompare up)
            gs_activeEnumSessions := sessions } path id).2 Flags id expr []).1 = S_OK ∧
    (GetDirEnumCallback host acceptFill
        (StartDirEnumCallback
          { gs_fileList := ReproduceSortingBug_fileList (NtfsFileNameCompare up)
            gs_activeEnumSessions := sessions } path id).2 Flags id expr []).2.2.map Prod.fst =
      [name_FileA, name_Fileb, name_File_] := by
  have h := fullEnumeration host
    { gs_fileList := ReproduceSortingBug_fileList (NtfsFileNameCompare up)
      gs_activeEnumSessions := sessions } path id Flags expr
  refine ⟨h.1, ?_⟩
  rw [h.2, matchingEntries_empty host hw expr hexpr, List.map_map,
    ← ReproduceSortingBug_fileList_ntfs up hup]
  rfl

/-- Witness for C2: the C-locale `towupper`, a host without wild cards and
the empty search expression. -/
theorem scenarioB_order_witness :
    (GetDirEnumCallback plainHost acceptFill
        (StartDirEnumCallback
          { gs_fileList := ReproduceSortingBug_fileList (NtfsFileNameCompare towupper)
            gs_activeEnumSessions := [] } [] 7).2 0 7 (some []) []).1 = S_OK ∧
    (GetDirEnumCallback plainHost acceptFill
        (StartDirEnumCallback
          { gs_fileList := ReproduceSortingBug_fileList (NtfsFileNameCompare towupper)
            gs_activeEnumSessions := [] } [] 7).2 0 7 (some []) []).2.2.map Prod.fst =
      [name_FileA, name_Fileb, name_File_] :=
  scenarioB_order towupper (fun _ _ => rfl) plainHost rfl [] [] 7 0 (some []) (Or.inr rfl)

/-- C3: scenario A.  With the file list ordered by the lower-fold comparer,
for any fold that agrees with `towlower` on the ASCII range, and filled as
`ReproduceSortingBug` does, a full enumeration with an absent or empty search
expression returns `S_OK` and delivers the names in the order `File_`, `FileA`,
`Fileb`. -/
theorem scenarioA_order (low : Nat → Nat) (hlow : ∀ c, c < 128 → low c = towlower c)
    (host : NameMatchHost) (hw : host.PrjDoesNameContainWildCards [] = false)
    (sessions : sessions_t) (path : Name) (id : GUID) (Flags : Nat)
    (expr : Option Name) (hexpr : expr = none ∨ expr = some []) :
    (GetDirEnumCallback host acceptFill
        (StartDirEnumCallback
          { gs_fileList := ReproduceSortingBug_fileList (PrjFileNameCompare low)
            gs_activeEnumSessions := sessions } path id).2 Flags id expr []).1 = S_OK ∧
    (GetDirEnumCallback host acceptFill
        (StartDirEnumCallback
          { gs_fileList := ReproduceSortingBug_fileList (PrjFileNameCompare low)
            gs_activeEnumSessions := sessions } path id).2 Flags id expr []).2.2.map Prod.fst =
      [name_File_, name_FileA, name_Fileb] := by
  have h := fullEnumeration host
    { gs_fileList := ReproduceSortingBug_fileList (PrjFileNameCompare low)
      gs_activeEnumSessions := sessions } path id Flags expr
  refine ⟨h.1, ?_⟩
  rw [h.2, matchingEntries_empty host hw expr hexpr, List.map_map,
    ← ReproduceSortingBug_fileList_prj low hlow]
  rfl

/-- Witness for C3: the C-locale `towlower`, a host without wild cards and
the empty search expression. -/
theorem scenarioA_order_witness :
    (GetDirEnumCallback plainHost acceptFill
        (StartDirEnumCallback
          { gs_fileList := ReproduceSortingBug_fileList (PrjFileNameCompare towlower)
            gs_activeEnumSessions := [] } [] 7).2 0 7 (some []) []).1 = S_OK ∧
    (GetDirEnumCallback plainHost acceptFill
        (StartDirEnumCallback
          { gs_fileList := ReproduceSortingBug_fileList (PrjFileNameCompare towlower)
            gs_activeEnumSessions := [] } [] 7).2 0 7 (some []) []).2.2.map Prod.fst =
      [name_File_, name_FileA, name_Fileb] :=
  scenarioA_order towlower (fun _ _ => rfl) plainHost rfl [] [] 7 0 (some []) (Or.inr rfl)

/-! ## CRC-32C: the word loop against the bit-serial definition -/

theorem shiftRight_one_eq (x : Nat) : x >>> 1 = x / 2 := by
  simp [Nat.shiftRight_eq_div_pow]

/-- One register shift after adding `a + 2 * z` (`a` a single bit): the bit
`a` is consumed as a message bit and `z` stays added to the register. -/
theorem crcShift_xor (c a z : Nat) (ha : a < 2) :
    crcShift (c ^^^ (a + 2 * z)) = crc32c_bit c a ^^^ z := by
  have h1 : (c ^^^ (a + 2 * z)) % 2 = (c + a) % 2 := by
    rw [Nat.xor_mod_two_eq]; omega
  have h2 : (c ^^^ (a + 2 * z)) >>> 1 = (c >>> 1) ^^^ z := by
    rw [shiftRight_one_eq, shiftRight_one_eq, Nat.xor_div_two]
    congr 1
    omega
  unfold crcShift crc32c_bit
  rw [h1, h2]
  split_ifs
  · rw [Nat.xor_assoc, Nat.xor_comm z, ← Nat.xor_assoc]
  · rfl

/-- Shifting the register `n` times after adding `lo + 2 ^ n * hi`: the low
`n` bits are consumed and `hi` stays added to the register. -/
theorem crcShift_iterate_xor (n : Nat) (c lo hi : Nat) (hlo : lo < 2 ^ n) :
    crcShift^[n] (c ^^^ (lo + 2 ^ n * hi)) = crcShift^[n] (c ^^^ lo) ^^^ hi := by
  induction n generalizing c lo hi with
  | zero =>
    have : lo = 0 := by simpa using hlo
    subst this
    simp
  | succ n ih =>
    have hz : lo / 2 < 2 ^ n := by
      rw [Nat.pow_succ] at hlo
      omega
    have e1 : lo + 2 ^ (n + 1) * hi = lo % 2 + 2 * (lo / 2 + 2 ^ n * hi) := by
      rw [Nat.pow_succ, Nat.mul_add, ← Nat.mul_assoc, Nat.mul_comm 2 (2 ^ n)]
      omega
    have e2 : lo = lo % 2 + 2 * (lo / 2) := by omega
    rw [Function.iterate_succ_apply, Function.iterate_succ_apply, e1,
      crcShift_xor c (lo % 2) _ (Nat.mod_lt _ (by decide)), ih _ _ _ hz]
    conv_rhs => rw [e2, crcShift_xor c (lo % 2) _ (Nat.mod_lt _ (by decide))]

theorem crcShift_iterate_add (m n : Nat) (x : Nat) :
    crcShift^[m + n] x = crcShift^[n] (crcShift^[m] x) := by
  rw [Nat.add_comm, Function.iterate_add_apply]

/-- The double-word instruction equals four byte instructions on the bytes in
little-endian order. -/
theorem crc32_u32_eq_u8 (c b0 b1 b2 b3 : Nat) (h0 : b0 < 256) (h1 : b1 < 256)
    (h2 : b2 < 256) :
    _mm_crc32_u32 c (load_u32 b0 b1 b2 b3) =
      _mm_crc32_u8 (_mm_crc32_u8 (_mm_crc32_u8 (_mm_crc32_u8 c b0) b1) b2) b3 := by
  have e : load_u32 b0 b1 b2 b3 = b0 + 2 ^ 8 * (b1 + 2 ^ 8 * (b2 + 2 ^ 8 * (b3 + 2 ^ 8 * 0))) := by
    simp only [load_u32, Nat.shiftLeft_eq]
    omega
  unfold _mm_crc32_u32 _mm_crc32_u8
  rw [e, show (32 : Nat) = 8 + (8 + (8 + 8)) from rfl, crcShift_iterate_add,
    crcShift_iterate_xor 8 c b0 _ (by simpa using h0), crcShift_iterate_add,
    crcShift_iterate_xor 8 _ b1 _ (by simpa using h1), crcShift_iterate_add,
    crcShift_iterate_xor 8 _ b2 _ (by simpa using h2)]
  simp

theorem crc32_loop_four (c b0 b1 b2 b3 : Nat) (rest : List Nat) :
    crc32_loop c (b0 :: b1 :: b2 :: b3 :: rest) =
      crc32_loop (_mm_crc32_u32 c (load_u32 b0 b1 b2 b3)) rest := rfl

/-- The loops of `crc32` amount to one byte instruction per byte, in order. -/
theorem crc32_loop_eq_foldl : ∀ (buf : List Nat) (c : Nat), (∀ b ∈ buf, b < 256) →
    crc32_loop c buf = buf.foldl _mm_crc32_u8 c
  | [], _, _ => rfl
  | [a], c, _ => by
    show crc32_tail c [a] = _
    simp [crc32_tail]
  | [a, b], c, _ => by
    show crc32_tail c [a, b] = _
    simp [crc32_tail, show (2 : Nat) &&& 3 = 2 from rfl]
  | [a, b, d], c, _ => by
    show crc32_tail c [a, b, d] = _
    simp [crc32_tail]
  | b0 :: b1 :: b2 :: b3 :: rest, c, h => by
    have hr : ∀ b ∈ rest, b < 256 := fun b hb => h b (by simp [hb])
    rw [crc32_loop_four, crc32_loop_eq_foldl rest _ hr,
      crc32_u32_eq_u8 c b0 b1 b2 b3 (h b0 (by simp)) (h b1 (by simp)) (h b2 (by simp))]
    rfl

/-- The bits `0 .. n-1` of `b`, least significant first. -/
theorem bits_succ (n b : Nat) :
    (List.range (n + 1)).map (fun k => (b >>> k) % 2) =
      (b % 2) :: (List.range n).map (fun k => ((b / 2) >>> k) % 2) := by
  rw [List.range_succ_eq_map, List.map_cons, List.map_map]
  simp [Function.comp_def, Nat.shiftRight_succ_inside]

/-- Feeding the low `n` bits of `b` one at a time equals adding them to the
register and shifting `n` times. -/
theorem crc32c_bit_foldl (n : Nat) (c b : Nat) :
    ((List.range n).map (fun k => (b >>> k) % 2)).foldl crc32c_bit c =
      crcShift^[n] (c ^^^ (b % 2 ^ n)) := by
  induction n generalizing c b with
  | zero => simp [Nat.mod_one]
  | succ n ih =>
    have e : b % 2 ^ (n + 1) = b % 2 + 2 * ((b / 2) % 2 ^ n) := by
      rw [Nat.pow_succ, Nat.mul_comm (2 ^ n) 2, Nat.mod_mul]
    rw [bits_succ, List.foldl_cons, ih, Function.iterate_succ_apply, e,
      crcShift_xor c (b % 2) _ (Nat.mod_lt _ (by decide))]

theorem crc32_u8_eq_bits (c b : Nat) (hb : b < 256) :
    (byteBits b).foldl crc32c_bit c = _mm_crc32_u8 c b := by
  unfold byteBits _mm_crc32_u8
  rw [crc32c_bit_foldl, Nat.mod_eq_of_lt (by simpa using hb)]

theorem crc32c_bit_foldl_bytes (buf : List Nat) (c : Nat) (h : ∀ b ∈ buf, b < 256) :
    (buf.flatMap byteBits).foldl crc32c_bit c = buf.foldl _mm_crc32_u8 c := by
  induction buf generalizing c with
  | nil => rfl
  | cons b buf ih =>
    rw [List.flatMap_cons, List.foldl_append, crc32_u8_eq_bits c b (h b (by simp)),
      ih _ (fun x hx => h x (by simp [hx]))]
    rfl

set_option maxRecDepth 100000 in
theorem crc32c_bitwise_check_value :
    crc32c_bitwise 0 [49, 50, 51, 52, 53, 54, 55, 56, 57] = 0xE3069283 := by
  decide

/-- The loops of `crc32` against the bit-serial CRC-32C. -/
theorem crc32_eq_bitwise (seed : Nat) (buf : List Nat) (hbuf : ∀ b ∈ buf, b < 256) :
    crc32 seed buf = crc32c_bitwise seed buf := by
  unfold crc32 crc32c_bitwise
  rw [crc32_loop_eq_foldl buf _ hbuf, crc32c_bit_foldl_bytes buf _ hbuf]

/-- C7: `crc32` is the standard CRC-32C (reflected polynomial `0x82F63B78`)
of the byte sequence computed bit by bit, with the register starting at the
complement of the seed and complemented at the end, for every seed and every
byte sequence of every length; and `crc32(0, "123456789") = 0xE3069283`. -/
theorem crc32_eq_crc32c_bitwise (seed : Nat) (buf : List Nat)
    (hbuf : ∀ b ∈ buf, b < 256) :
    crc32 seed buf = crc32c_bitwise seed buf ∧
      crc32 0 [49, 50, 51, 52, 53, 54, 55, 56, 57] = 0xE3069283 := by
  refine ⟨crc32_eq_bitwise seed buf hbuf, ?_⟩
  rw [crc32_eq_bitwise 0 _ (by decide)]
  exact crc32c_bitwise_check_value

/-- Witness for C7: a seed and a buffer of six bytes, one word and a
remainder of two. -/
theorem crc32_eq_crc32c_bitwise_witness :
    crc32 7 [1, 2, 3, 4, 5, 255] = crc32c_bitwise 7 [1, 2, 3, 4, 5, 255] :=
  (crc32_eq_crc32c_bitwise 7 [1, 2, 3, 4, 5, 255] (by decide)).1

/-! ## Ending a session -/

theorem sessions_find_eq_none (id : GUID) (t : sessions_t) (h : ∀ p ∈ t, p.1 ≠ id) :
    sessions_find id t = none := by
  induction t with
  | nil => rfl
  | cons p t ih =>
    have hp : ¬ (!GUIDComparer p.1 id && !GUIDComparer id p.1) = true :=
      fun hc => h p (List.mem_cons_self _ _) ((GUID_equiv_iff _ _).1 hc)
    rw [sessions_find, if_neg hp]
    exact ih (fun q hq => h q (List.mem_cons_of_mem _ hq))

theorem sessions_find_none_forall (id : GUID) (t : sessions_t)
    (h : sessions_find id t = none) : ∀ p ∈ t, p.1 ≠ id := by
  induction t with
  | nil => simp
  | cons p t ih =>
    unfold sessions_find at h
    split_ifs at h with h1
    intro q hq
    rcases List.mem_cons.1 hq with rfl | hq
    · exact fun hc => h1 ((GUID_equiv_iff _ _).2 hc)
    · exact ih h q hq

theorem sessions_erase_eq_filter (id : GUID) (t : sessions_t) (ht : sessions_sorted t) :
    sessions_erase id t = t.filter (fun p => decide (p.1 ≠ id)) := by
  induction t with
  | nil => rfl
  | cons p t ih =>
    unfold sessions_sorted at ht ih
    rw [List.pairwise_cons] at ht
    unfold sessions_erase
    split_ifs with h1
    · have hp : p.1 = id := (GUID_equiv_iff _ _).1 h1
      have hrest : ∀ q ∈ t, decide (q.1 ≠ id) = true := by
        intro q hq
        have := ht.1 q hq
        rw [hp] at this
        exact decide_eq_true (Nat.ne_of_gt this)
      rw [List.filter_cons_of_neg (by simp [hp]), List.filter_eq_self.2 hrest]
    · have hp : p.1 ≠ id := fun hc => h1 ((GUID_equiv_iff _ _).2 hc)
      rw [List.filter_cons_of_pos (by simpa using hp), ih ht.2]

theorem sessions_erase_absent (id : GUID) (t : sessions_t)
    (h : sessions_find id t = none) : sessions_erase id t = t := by
  induction t with
  | nil => rfl
  | cons p t ih =>
    unfold sessions_find at h
    split_ifs at h with h1
    rw [sessions_erase, if_neg h1, ih h]

theorem sessions_find_erase_ne (id g : GUID) (t : sessions_t) (hg : g ≠ id) :
    sessions_find g (sessions_erase id t) = sessions_find g t := by
  induction t with
  | nil => rfl
  | cons p t ih =>
    unfold sessions_erase
    split_ifs with h1
    · have hp : p.1 = id := (GUID_equiv_iff _ _).1 h1
      have hpg : ¬ (!GUIDComparer p.1 g && !GUIDComparer g p.1) = true :=
        fun hc => hg (((GUID_equiv_iff _ _).1 hc).symm.trans hp)
      rw [sessions_find, if_neg hpg]
    · rw [sessions_find, sessions_find, ih]

theorem sessions_find_filter_self (id : GUID) (t : sessions_t) :
    sessions_find id (t.filter (fun p => decide (p.1 ≠ id))) = none := by
  apply sessions_find_eq_none
  intro p hp
  simpa using (List.mem_filter.1 hp).2

/-- On a table in key order `EndDirEnumCallback` removes the entries of key
`id` and nothing else. -/
theorem EndDirEnumCallback_sessions (st : ProviderState) (id : GUID)
    (hwf : sessions_sorted st.gs_activeEnumSessions) :
    (EndDirEnumCallback st id).2.gs_activeEnumSessions =
      st.gs_activeEnumSessions.filter (fun p => decide (p.1 ≠ id)) := by
  unfold EndDirEnumCallback
  cases h : sessions_find id st.gs_activeEnumSessions with
  | none =>
    simp only
    rw [← sessions_erase_eq_filter id _ hwf, sessions_erase_absent id _ h]
  | some s =>
    simp only
    exact sessions_erase_eq_filter id _ hwf

/-- After `EndDirEnumCallback` the id is not active. -/
theorem EndDirEnumCallback_find_none (st : ProviderState) (id : GUID)
    (hwf : sessions_sorted st.gs_activeEnumSessions) :
    sessions_find id (EndDirEnumCallback st id).2.gs_activeEnumSessions = none := by
  rw [EndDirEnumCallback_sessions st id hwf]
  exact sessions_find_filter_self id _

/-- C8: `EndDirEnumCallback` always returns `S_OK` and never touches the file
list.  On a session table in key order the resulting table is the old one
without the entries of key `id`: the id is no longer active afterwards, the
session of every other id is the one it was, and the table stays in key
order; when `id` is not active the state is unchanged; and a second call on
the same id returns `S_OK` and leaves the state the first call produced. -/
theorem EndDirEnumCallback_idempotent (st : ProviderState) (id : GUID)
    (hwf : sessions_sorted st.gs_activeEnumSessions) :
    (EndDirEnumCallback st id).1 = S_OK ∧
    (EndDirEnumCallback st id).2.gs_fileList = st.gs_fileList ∧
    (EndDirEnumCallback st id).2.gs_activeEnumSessions =
      st.gs_activeEnumSessions.filter (fun p => decide (p.1 ≠ id)) ∧
    sessions_find id (EndDirEnumCallback st id).2.gs_activeEnumSessions = none ∧
    (∀ g, g ≠ id →
      sessions_find g (EndDirEnumCallback st id).2.gs_activeEnumSessions =
        sessions_find g st.gs_activeEnumSessions) ∧
    sessions_sorted (EndDirEnumCallback st id).2.gs_activeEnumSessions ∧
    (sessions_find id st.gs_activeEnumSessions = none → (EndDirEnumCallback st id).2 = st) ∧
    EndDirEnumCallback (EndDirEnumCallback st id).2 id = EndDirEnumCallback st id := by
  have hfilter := EndDirEnumCallback_sessions st id hwf
  have hnone := EndDirEnumCallback_find_none st id hwf
  have hstatus : ∀ s : ProviderState, (EndDirEnumCallback s id).1 = S_OK := by
    intro s
    unfold EndDirEnumCallback
    cases sessions_find id s.gs_activeEnumSessions <;> rfl
  have hlist : (EndDirEnumCallback st id).2.gs_fileList = st.gs_fileList := by
    unfold EndDirEnumCallback
    cases sessions_find id st.gs_activeEnumSessions <;> rfl
  have hunknown : ∀ s : ProviderState, sessions_find id s.gs_activeEnumSessions = none →
      EndDirEnumCallback s id = (S_OK, s) := by
    intro s hs
    unfold EndDirEnumCallback
    rw [hs]
  refine ⟨hstatus st, hlist, hfilter, hnone, ?_, ?_, ?_, ?_⟩
  · intro g hg
    unfold EndDirEnumCallback
    cases h : sessions_find id st.gs_activeEnumSessions with
    | none => rfl
    | some s => exact sessions_find_erase_ne id g _ hg
  · rw [hfilter]
    exact List.Pairwise.sublist (List.filter_sublist _) hwf
  · intro h
    rw [hunknown st h]
  · rw [hunknown _ hnone]
    exact Prod.ext (hstatus st).symm rfl

/-- Witness for C8: a table with the sessions 3 and 7, ending 7. -/
theorem EndDirEnumCallback_idempotent_witness :
    EndDirEnumCallback
        (EndDirEnumCallback
          { gs_fileList := []
            gs_activeEnumSessions := [(3, DirEnumSession_new []), (7, DirEnumSession_new [])] }
          7).2 7 =
      EndDirEnumCallback
        { gs_fileList := []
          gs_activeEnumSessions := [(3, DirEnumSession_new []), (7, DirEnumSession_new [])] } 7 :=
  (EndDirEnumCallback_idempotent
    { gs_fileList := []
      gs_activeEnumSessions := [(3, DirEnumSession_new []), (7, DirEnumSession_new [])] } 7
    (by decide)).2.2.2.2.2.2.2

theorem sessions_assign_mem (id : GUID) (s : DirEnumSession) (t : sessions_t)
    (q : GUID × DirEnumSession) (h : q ∈ sessions_assign id s t) :
    q.1 = id ∨ ∃ p ∈ t, p.1 = q.1 := by
  induction t with
  | nil =>
    have : q = (id, s) := by simpa [sessions_assign] using h
    exact Or.inl (by rw [this])
  | cons p t ih =>
    unfold sessions_assign at h
    split_ifs at h with h1 h2
    · rcases List.mem_cons.1 h with rfl | h
      · exact Or.inl rfl
      · exact Or.inr ⟨q, h, rfl⟩
    · rcases List.mem_cons.1 h with rfl | h
      · exact Or.inr ⟨q, List.mem_cons_self _ _, rfl⟩
      · rcases ih h with h | ⟨r, hr, hrq⟩
        · exact Or.inl h
        · exact Or.inr ⟨r, List.mem_cons_of_mem _ hr, hrq⟩
    · rcases List.mem_cons.1 h with rfl | h
      · exact Or.inr ⟨p, List.mem_cons_self _ _, rfl⟩
      · exact Or.inr ⟨q, List.mem_cons_of_mem _ h, rfl⟩

/-- `StartDirEnumCallback` keeps the session table in key order. -/
theorem sessions_assign_sorted (id : GUID) (s : DirEnumSession) (t : sessions_t)
    (ht : sessions_sorted t) : sessions_sorted (sessions_assign id s t) := by
  induction t with
  | nil => simp [sessions_assign, sessions_sorted]
  | cons p t ih =>
    unfold sessions_sorted at ht ih ⊢
    rw [List.pairwise_cons] at ht
    unfold sessions_assign
    split_ifs with h1 h2
    · have h1' : id < p.1 := by simpa [GUIDComparer] using h1
      refine List.pairwise_cons.2 ⟨?_, List.pairwise_cons.2 ht⟩
      intro q hq
      rcases List.mem_cons.1 hq with rfl | hq
      · exact h1'
      · exact Nat.lt_trans h1' (ht.1 q hq)
    · have h2' : p.1 < id := by simpa [GUIDComparer] using h2
      refine List.pairwise_cons.2 ⟨?_, ih ht.2⟩
      intro q hq
      rcases sessions_assign_mem id s t q hq with h | ⟨r, hr, hrq⟩
      · rw [h]; exact h2'
      · rw [← hrq]; exact ht.1 r hr
    · exact List.pairwise_cons.2 ⟨fun q hq => ht.1 q hq, ht.2⟩

/-- `GetDirEnumCallback` keeps the keys of the session table. -/
theorem sessions_store_keys (id : GUID) (s : DirEnumSession) (t : sessions_t) :
    (sessions_store id s t).map Prod.fst = t.map Prod.fst := by
  induction t with
  | nil => rfl
  | cons p t ih =>
    unfold sessions_store
    split_ifs
    · rfl
    · simp [ih]

theorem sessions_store_sorted (id : GUID) (s : DirEnumSession) (t : sessions_t)
    (ht : sessions_sorted t) : sessions_sorted (sessions_store id s t) := by
  unfold sessions_sorted at ht ⊢
  have h1 : (t.map Prod.fst).Pairwise (fun a b => a < b) := List.pairwise_map.2 ht
  rw [← sessions_store_keys id s t] at h1
  exact List.pairwise_map.1 h1

/-- The three callbacks keep the session table in key order. -/
theorem callbacks_keep_sessions_sorted {σ : Type} (host : NameMatchHost)
    (fill : Name → PRJ_FILE_BASIC_INFO → σ → HRESULT × σ) (st : ProviderState)
    (Flags : Nat) (id : GUID) (path : Name) (expr : Option Name) (buf : σ)
    (hwf : sessions_sorted st.gs_activeEnumSessions) :
    sessions_sorted (StartDirEnumCallback st path id).2.gs_activeEnumSessions ∧
    sessions_sorted (EndDirEnumCallback st id).2.gs_activeEnumSessions ∧
    sessions_sorted
      (GetDirEnumCallback host fill st Flags id expr buf).2.1.gs_activeEnumSessions := by
  refine ⟨sessions_assign_sorted id _ _ hwf, ?_, ?_⟩
  · rw [EndDirEnumCallback_sessions st id hwf]
    exact List.Pairwise.sublist (List.filter_sublist _) hwf
  · unfold GetDirEnumCallback
    cases sessions_find id st.gs_activeEnumSessions with
    | none => exact hwf
    | some s => exact sessions_store_sorted id _ _ hwf

/-! ## Enumeration on a session that is not active -/

/-- The status of the loop is `S_OK` or a failure status that
`PrjFillDirEntryBuffer` returned for an entry of the list. -/
theorem dirEnumLoop_status {σ : Type} (host : NameMatchHost)
    (fill : Name → PRJ_FILE_BASIC_INFO → σ → HRESULT × σ) (expr : Option Name)
    (l : filelist_t) (it : Nat) (buf : σ) :
    (dirEnumLoop host fill expr l it buf).1 = S_OK ∨
      ∃ e ∈ l, ∃ b, (dirEnumLoop host fill expr l it buf).1 =
        (fill e.1 e.2.FileBasicInfo b).1 := by
  induction l generalizing it buf with
  | nil => exact Or.inl rfl
  | cons e l ih =>
    unfold dirEnumLoop
    simp only
    split_ifs with h1 h2 h3
    · rcases ih (it + 1) buf with h | ⟨x, hx, b, hb⟩
      · exact Or.inl h
      · exact Or.inr ⟨x, List.mem_cons_of_mem _ hx, b, hb⟩
    · exact Or.inl rfl
    · exact Or.inr ⟨e, List.mem_cons_self _ _, buf, rfl⟩
    · rcases ih (it + 1) (fill e.1 e.2.FileBasicInfo buf).2 with h | ⟨x, hx, b, hb⟩
      · exact Or.inl h
      · exact Or.inr ⟨x, List.mem_cons_of_mem _ hx, b, hb⟩

/-- C9: `GetDirEnumCallback` on a session id that is not active returns
`E_UNEXPECTED`, leaves the buffer as it was and leaves the state (session
table and file list) unchanged; this is the case for an id that
`EndDirEnumCallback` has ended.  On an active id the status is `S_OK` or a
status that `PrjFillDirEntryBuffer` returned, so it is `E_UNEXPECTED` only if
the buffer itself reported that. -/
theorem GetDirEnumCallback_invalid_session {σ : Type} (host : NameMatchHost)
    (fill : Name → PRJ_FILE_BASIC_INFO → σ → HRESULT × σ) (st : ProviderState)
    (Flags : Nat) (id : GUID) (expr : Option Name) (buf : σ) :
    (sessions_find id st.gs_activeEnumSessions = none →
      GetDirEnumCallback host fill st Flags id expr buf = (E_UNEXPECTED, st, buf)) ∧
    (sessions_sorted st.gs_activeEnumSessions →
      GetDirEnumCallback host fill (EndDirEnumCallback st id).2 Flags id expr buf =
        (E_UNEXPECTED, (EndDirEnumCallback st id).2, buf)) ∧
    (sessions_find id st.gs_activeEnumSessions ≠ none →
      ((GetDirEnumCallback host fill st Flags id expr buf).1 = S_OK ∨
        ∃ e ∈ st.gs_fileList, ∃ b, (GetDirEnumCallback host fill st Flags id expr buf).1 =
          (fill e.1 e.2.FileBasicInfo b).1) ∧
      ((∀ name info b, (fill name info b).1 ≠ E_UNEXPECTED) →
        (GetDirEnumCallback host fill st Flags id expr buf).1 ≠ E_UNEXPECTED)) := by
  have hnone : ∀ s : ProviderState, sessions_find id s.gs_activeEnumSessions = none →
      GetDirEnumCallback host fill s Flags id expr buf = (E_UNEXPECTED, s, buf) := by
    intro s hs
    unfold GetDirEnumCallback
    rw [hs]
  have hactive : sessions_find id st.gs_activeEnumSessions ≠ none →
      ((GetDirEnumCallback host fill st Flags id expr buf).1 = S_OK ∨
        ∃ e ∈ st.gs_fileList, ∃ b, (GetDirEnumCallback host fill st Flags id expr buf).1 =
          (fill e.1 e.2.FileBasicInfo b).1) := by
    intro h
    cases hs : sessions_find id st.gs_activeEnumSessions with
    | none => exact absurd hs h
    | some s =>
      simp only [GetDirEnumCallback, hs]
      rcases dirEnumLoop_status host fill expr
        (st.gs_fileList.drop (if Flags &&& PRJ_CB_DATA_FLAG_ENUM_RESTART_SCAN ≠ 0 then 0 else s.it))
        (if Flags &&& PRJ_CB_DATA_FLAG_ENUM_RESTART_SCAN ≠ 0 then 0 else s.it) buf
        with h1 | ⟨e, he, b, hb⟩
      · exact Or.inl h1
      · exact Or.inr ⟨e, List.mem_of_mem_drop he, b, hb⟩
  refine ⟨hnone st, ?_, ?_⟩
  · intro hwf
    exact hnone _ (EndDirEnumCallback_find_none st id hwf)
  · intro h
    refine ⟨hactive h, ?_⟩
    intro hfill
    rcases hactive h with h1 | ⟨e, _, b, hb⟩
    · rw [h1]; decide
    · rw [hb]; exact hfill _ _ _

/-- Witness for C9: the session 5 is not in the table `[3, 7]`; the session
7 has been ended; the session 7 is active and the buffer accepts everything. -/
theorem GetDirEnumCallback_invalid_session_witness :
    GetDirEnumCallback plainHost acceptFill midScan_state 0 5 none [] =
      (E_UNEXPECTED, midScan_state, []) ∧
    GetDirEnumCallback plainHost acceptFill (EndDirEnumCallback midScan_state 7).2 0 7 none [] =
      (E_UNEXPECTED, (EndDirEnumCallback midScan_state 7).2, []) ∧
    (GetDirEnumCallback plainHost acceptFill midScan_state 0 7 none []).1 ≠ E_UNEXPECTED :=
  ⟨(GetDirEnumCallback_invalid_session plainHost acceptFill midScan_state 0 5 none []).1
      (by decide),
   (GetDirEnumCallback_invalid_session plainHost acceptFill midScan_state 0 7 none []).2.1
      (by decide),
   ((GetDirEnumCallback_invalid_session plainHost acceptFill midScan_state 0 7 none []).2.2
      (by decide)).2 (fun _ _ _ => (by decide : S_OK ≠ E_UNEXPECTED))⟩

/-! ## Restart -/

/-- C10: a call with `PRJ_CB_DATA_FLAG_ENUM_RESTART_SCAN` set on an active
session, whatever its iterator, returns the status, delivers the buffer
content and leaves the iterator that the same call returns, delivers and
leaves on a session freshly started over the same file list. -/
theorem restart_equals_fresh {σ : Type} (host : NameMatchHost)
    (fill : Name → PRJ_FILE_BASIC_INFO → σ → HRESULT × σ) (st st0 : ProviderState)
    (Flags : Nat) (id id0 : GUID) (path : Name) (expr : Option Name) (buf : σ)
    (hflag : Flags &&& PRJ_CB_DATA_FLAG_ENUM_RESTART_SCAN ≠ 0)
    (hactive : sessions_find id st.gs_activeEnumSessions ≠ none)
    (hlist : st0.gs_fileList = st.gs_fileList) :
    (GetDirEnumCallback host fill st Flags id expr buf).1 =
      (GetDirEnumCallback host fill (StartDirEnumCallback st0 path id0).2 Flags id0 expr
        buf).1 ∧
    (GetDirEnumCallback host fill st Flags id expr buf).2.2 =
      (GetDirEnumCallback host fill (StartDirEnumCallback st0 path id0).2 Flags id0 expr
        buf).2.2 ∧
    sessionCursor id (GetDirEnumCallback host fill st Flags id expr buf).2.1 =
      sessionCursor id0
        (GetDirEnumCallback host fill (StartDirEnumCallback st0 path id0).2 Flags id0 expr
          buf).2.1 ∧
    sessionCursor id (GetDirEnumCallback host fill st Flags id expr buf).2.1 =
      some (dirEnumLoop host fill expr st.gs_fileList 0 buf).2.1 ∧
    (GetDirEnumCallback host fill st Flags id expr buf).2.1.gs_fileList = st.gs_fileList := by
  have hfind0 : sessions_find id0 (StartDirEnumCallback st0 path id0).2.gs_activeEnumSessions =
      some (DirEnumSession_new path) := by
    simp [StartDirEnumCallback, sessions_find_assign]
  have hlist0 : (StartDirEnumCallback st0 path id0).2.gs_fileList = st.gs_fileList := hlist
  cases hs : sessions_find id st.gs_activeEnumSessions with
  | none => exact absurd hs hactive
  | some s =>
    simp only [GetDirEnumCallback, hs, hfind0, hlist0, if_pos hflag, List.drop_zero,
      sessionCursor, sessions_find_store id _ s _ hs,
      sessions_find_store id0 _ _ _ hfind0, Option.map_some', and_self]

/-- Witness for C10: the session 7 parked at the second of three entries is
restarted and compared with a fresh session 9. -/
theorem restart_equals_fresh_witness :
    (GetDirEnumCallback plainHost acceptFill midScan_state 1 7 none []).2.2 =
      (GetDirEnumCallback plainHost acceptFill
        (StartDirEnumCallback sortingBug_state [] 9).2 1 9 none []).2.2 ∧
    sessionCursor 7 (GetDirEnumCallback plainHost acceptFill midScan_state 1 7 none []).2.1 =
      sessionCursor 9
        (GetDirEnumCallback plainHost acceptFill
          (StartDirEnumCallback sortingBug_state [] 9).2 1 9 none []).2.1 :=
  have h := restart_equals_fresh plainHost acceptFill midScan_state sortingBug_state 1 7 9 []
    none [] (by decide) (by decide) rfl
  ⟨h.2.1, h.2.2.1⟩

/-! ## File data -/

/-- C5: two-phase delivery.  For `ByteOffset = 0` and
`Length = sizeof(gs_fileBuf) = 513`, with no fault injected, the buffer
allocated and a data stream whose writes succeed, the call returns `S_OK` and
the stream receives exactly two writes, in order: `Length / 2` bytes at offset
`0`, the source bytes `[0, Length / 2)`, then `Length - Length / 2` bytes at
offset `Length / 2`, the source bytes `[Length / 2, Length)`.  The second range
starts where the first ends and ends at `Length`; applying the two writes at
their offsets to a file of at most `Length` bytes gives the source content,
whose `crc32` is `gs_fileBufCrc32`. -/
theorem twoPhaseDelivery {σ : Type} (write : σ → WriteCall → HRESULT × σ)
    (hok : ∀ s w, SUCCEEDED (write s w).1 = true) (gs_fileBuf : List Nat)
    (hlen : gs_fileBuf.length = sizeof_gs_fileBuf) (s0 : σ) (file : List Nat)
    (hfile : file.length ≤ sizeof_gs_fileBuf) :
    (GetFileDataCallback (recordWrite write) true gs_fileBuf S_OK 0 sizeof_gs_fileBuf
        (s0, [])).1 = some S_OK ∧
    (GetFileDataCallback (recordWrite write) true gs_fileBuf S_OK 0 sizeof_gs_fileBuf
        (s0, [])).2.2 =
      [{ data := gs_fileBuf.take (sizeof_gs_fileBuf / 2), byteOffset := 0,
         length := sizeof_gs_fileBuf / 2 },
       { data := gs_fileBuf.drop (sizeof_gs_fileBuf / 2),
         byteOffset := sizeof_gs_fileBuf / 2,
         length := sizeof_gs_fileBuf - sizeof_gs_fileBuf / 2 }] ∧
    (gs_fileBuf.take (sizeof_gs_fileBuf / 2)).length = sizeof_gs_fileBuf / 2 ∧
    (gs_fileBuf.drop (sizeof_gs_fileBuf / 2)).length =
      sizeof_gs_fileBuf - sizeof_gs_fileBuf / 2 ∧
    0 + sizeof_gs_fileBuf / 2 = sizeof_gs_fileBuf / 2 ∧
    sizeof_gs_fileBuf / 2 + (sizeof_gs_fileBuf - sizeof_gs_fileBuf / 2) = sizeof_gs_fileBuf ∧
    (GetFileDataCallback (recordWrite write) true gs_fileBuf S_OK 0 sizeof_gs_fileBuf
        (s0, [])).2.2.foldl applyWrite file = gs_fileBuf ∧
    crc32 0 ((GetFileDataCallback (recordWrite write) true gs_fileBuf S_OK 0
        sizeof_gs_fileBuf (s0, [])).2.2.foldl applyWrite file) =
      gs_fileBufCrc32 gs_fileBuf := by
  have htake : gs_fileBuf.take 513 = gs_fileBuf :=
    List.take_of_length_le (Nat.le_of_eq hlen)
  have hdrop : (gs_fileBuf.drop 256).take 257 = gs_fileBuf.drop 256 := by
    apply List.take_of_length_le
    rw [List.length_drop, hlen]
    decide
  have hlog : (GetFileDataCallback (recordWrite write) true gs_fileBuf S_OK 0 sizeof_gs_fileBuf
        (s0, [])).2.2 =
      [{ data := gs_fileBuf.take (sizeof_gs_fileBuf / 2), byteOffset := 0,
         length := sizeof_gs_fileBuf / 2 },
       { data := gs_fileBuf.drop (sizeof_gs_fileBuf / 2),
         byteOffset := sizeof_gs_fileBuf / 2,
         length := sizeof_gs_fileBuf - sizeof_gs_fileBuf / 2 }] := by
    simp [GetFileDataCallback, recordWrite, htake, hdrop, hok, sizeof_gs_fileBuf]
  have hl1 : (gs_fileBuf.take (sizeof_gs_fileBuf / 2)).length = sizeof_gs_fileBuf / 2 := by
    rw [List.length_take, hlen]
    decide
  have happly : (GetFileDataCallback (recordWrite write) true gs_fileBuf S_OK 0
      sizeof_gs_fileBuf (s0, [])).2.2.foldl applyWrite file = gs_fileBuf := by
    rw [hlog]
    simp only [List.foldl_cons, List.foldl_nil, applyWrite, List.take_zero, List.nil_append,
      Nat.zero_add]
    have hz : 0 - file.length = 0 := Nat.zero_sub _
    rw [hz, List.replicate_zero, List.nil_append]
    have h1 : (List.take (sizeof_gs_fileBuf / 2) gs_fileBuf ++
        List.drop (sizeof_gs_fileBuf / 2) file).take (sizeof_gs_fileBuf / 2) =
        List.take (sizeof_gs_fileBuf / 2) gs_fileBuf := by
      rw [List.take_append_of_le_length (Nat.le_of_eq hl1.symm),
        List.take_of_length_le (Nat.le_of_eq hl1)]
    have h2 : sizeof_gs_fileBuf / 2 - (List.take (sizeof_gs_fileBuf / 2) gs_fileBuf ++
        List.drop (sizeof_gs_fileBuf / 2) file).length = 0 := by
      rw [List.length_append, hl1]
      omega
    have h3 : (List.take (sizeof_gs_fileBuf / 2) gs_fileBuf ++
        List.drop (sizeof_gs_fileBuf / 2) file).drop
          (sizeof_gs_fileBuf / 2 + (sizeof_gs_fileBuf - sizeof_gs_fileBuf / 2)) = [] := by
      apply List.drop_of_length_le
      rw [List.length_append, hl1, List.length_drop]
      omega
    rw [h1, h2, h3, List.replicate_zero, List.append_nil, List.append_nil,
      List.take_append_drop]
  refine ⟨?_, hlog, hl1, ?_, rfl, by decide, happly, ?_⟩
  · simp [GetFileDataCallback, recordWrite, hok, sizeof_gs_fileBuf]
  · rw [List.length_drop, hlen]
  · rw [happly]; rfl

/-- Witness for C5: the buffer content `main` sets up, an always succeeding
stream and an empty file. -/
theorem twoPhaseDelivery_witness :
    (GetFileDataCallback (recordWrite okWrite) true main_gs_fileBuf S_OK 0 sizeof_gs_fileBuf
        ((), [])).1 = some S_OK ∧
    (GetFileDataCallback (recordWrite okWrite) true main_gs_fileBuf S_OK 0 sizeof_gs_fileBuf
        ((), [])).2.2.foldl applyWrite [] = main_gs_fileBuf :=
  have h := twoPhaseDelivery okWrite (fun _ _ => rfl) main_gs_fileBuf
    (by simp [main_gs_fileBuf]) () [] (by decide)
  ⟨h.1, h.2.2.2.2.2.2.1⟩

/-- C6: fault injection.  With a value other than `S_OK` in
`GetFileDataCallbackErrorInjection`, a valid request (`ByteOffset = 0`,
`Length = 513`) and the buffer allocated, whatever the data stream answers the
call returns the injected value and the stream receives exactly one write: the
first `Length / 2` source bytes at offset `0`. -/
theorem faultInjection {σ : Type} (write : σ → WriteCall → HRESULT × σ)
    (gs_fileBuf : List Nat) (e : HRESULT) (he : e ≠ S_OK) (s0 : σ)
    (log : List WriteCall) :
    (GetFileDataCallback (recordWrite write) true gs_fileBuf e 0 sizeof_gs_fileBuf
        (s0, log)).1 = some e ∧
    (GetFileDataCallback (recordWrite write) true gs_fileBuf e 0 sizeof_gs_fileBuf
        (s0, log)).2.2 =
      log ++ [{ data := gs_fileBuf.take (sizeof_gs_fileBuf / 2), byteOffset := 0,
                length := sizeof_gs_fileBuf / 2 }] := by
  have htake : (gs_fileBuf.take 513).take 256 = gs_fileBuf.take 256 := by
    rw [List.take_take]
    rfl
  simp [GetFileDataCallback, recordWrite, he, htake, sizeof_gs_fileBuf]

/-- Witness for C6: `E_UNEXPECTED` injected over the buffer content `main`
sets up. -/
theorem faultInjection_witness :
    (GetFileDataCallback (recordWrite okWrite) true main_gs_fileBuf E_UNEXPECTED 0
        sizeof_gs_fileBuf ((), [])).1 = some E_UNEXPECTED ∧
    (GetFileDataCallback (recordWrite okWrite) true main_gs_fileBuf E_UNEXPECTED 0
        sizeof_gs_fileBuf ((), [])).2.2 =
      [] ++ [{ data := main_gs_fileBuf.take (sizeof_gs_fileBuf / 2), byteOffset := 0,
               length := sizeof_gs_fileBuf / 2 }] :=
  faultInjection okWrite main_gs_fileBuf E_UNEXPECTED (by decide) () []

/-! ## Starting a session -/

theorem sessions_find_assign_ne (id g : GUID) (s : DirEnumSession) (t : sessions_t)
    (hg : g ≠ id) :
    sessions_find g (sessions_assign id s t) = sessions_find g t := by
  have hid : ¬ (!GUIDComparer id g && !GUIDComparer g id) = true :=
    fun hc => hg ((GUID_equiv_iff _ _).1 hc).symm
  induction t with
  | nil => simp only [sessions_assign, sessions_find, if_neg hid]
  | cons p t ih =>
    unfold sessions_assign
    split_ifs with h1 h2
    · rw [sessions_find, if_neg hid]
    · rw [sessions_find, sessions_find, ih]
    · have h3 : ¬ id < p.1 := by simpa [GUIDComparer] using h1
      have h4 : ¬ p.1 < id := by simpa [GUIDComparer] using h2
      have h5 : p.1 = id := Nat.le_antisymm (Nat.not_lt.1 h3) (Nat.not_lt.1 h4)
      have hp : ¬ (!GUIDComparer p.1 g && !GUIDComparer g p.1) = true := by
        rw [h5]; exact hid
      simp only [sessions_find]
      rw [if_neg hp, if_neg hp]

/-- C11 (amended): `StartDirEnumCallback` never fails.  It returns `S_OK` for
every session table and every id; afterwards the session stored under the id
is a new one, with the path of the call, the iterator at the first entry of
the file list and `scanComplete` false, whether or not the id was active
before; the session of every other id and the file list are unchanged. -/
theorem StartDirEnumCallback_always_succeeds (st : ProviderState) (path : Name)
    (id : GUID) :
    (StartDirEnumCallback st path id).1 = S_OK ∧
    sessions_find id (StartDirEnumCallback st path id).2.gs_activeEnumSessions =
      some { fileName := path, it := 0, scanComplete := false } ∧
    (∀ g, g ≠ id →
      sessions_find g (StartDirEnumCallback st path id).2.gs_activeEnumSessions =
        sessions_find g st.gs_activeEnumSessions) ∧
    (StartDirEnumCallback st path id).2.gs_fileList = st.gs_fileList :=
  ⟨rfl, sessions_find_assign id _ _, fun g hg => sessions_find_assign_ne id g _ _ hg, rfl⟩

/-- Witness for C11: starting the session 9 next to the active session 7. -/
theorem StartDirEnumCallback_always_succeeds_witness :
    sessions_find 7 (StartDirEnumCallback midScan_state [66] 9).2.gs_activeEnumSessions =
      sessions_find 7 midScan_state.gs_activeEnumSessions :=
  (StartDirEnumCallback_always_succeeds midScan_state [66] 9).2.2.1 7 (by decide)

/-- C11 (counterexample): the session 7 is active with its iterator at the
second entry; starting 7 again returns `S_OK`, not a failure, and replaces the
stored session. -/
theorem StartDirEnumCallback_duplicate_counterexample :
    sessions_find 7 midScan_state.gs_activeEnumSessions =
      some { fileName := [], it := 1, scanComplete := false } ∧
    FAILED (StartDirEnumCallback midScan_state [66] 7).1 = false ∧
    sessions_find 7 (StartDirEnumCallback midScan_state [66] 7).2.gs_activeEnumSessions =
      some { fileName := [66], it := 0, scanComplete := false } := by
  decide

/-! ## File data: requests that are not whole-file, and failing writes -/

/-- C13 (amended): a request with `Length = 0` returns `S_OK` without a write.
Every other request than `ByteOffset = 0`, `Length = 513` is a contract
violation: a `VERIFY` ends the process, so the call does not return a status,
and no write is issued, whatever the stream, the allocation and the injected
value. -/
theorem GetFileDataCallback_partial_request {σ : Type}
    (write : σ → WriteCall → HRESULT × σ) (allocOk : Bool) (gs_fileBuf : List Nat)
    (injection : HRESULT) (ByteOffset Length : Nat) (s0 : σ) (log : List WriteCall) :
    (Length = 0 →
      GetFileDataCallback (recordWrite write) allocOk gs_fileBuf injection ByteOffset Length
        (s0, log) = (some S_OK, (s0, log))) ∧
    (Length ≠ 0 → ¬ (ByteOffset = 0 ∧ Length = sizeof_gs_fileBuf) →
      GetFileDataCallback (recordWrite write) allocOk gs_fileBuf injection ByteOffset Length
        (s0, log) = (none, (s0, log))) := by
  constructor
  · intro h
    simp [GetFileDataCallback, h]
  · intro h1 h2
    unfold GetFileDataCallback
    rw [if_neg h1]
    by_cases ha : allocOk = true
    · by_cases hb : ByteOffset = 0
      · have hl : Length ≠ sizeof_gs_fileBuf := fun hc => h2 ⟨hb, hc⟩
        simp [ha, hb, hl]
      · simp [ha, hb]
    · simp [ha]

/-- Witness for C13: an empty request, a request at offset 1 and a request for
the first half only. -/
theorem GetFileDataCallback_partial_request_witness :
    GetFileDataCallback (recordWrite okWrite) true main_gs_fileBuf S_OK 0 0 ((), []) =
      (some S_OK, ((), [])) ∧
    GetFileDataCallback (recordWrite okWrite) true main_gs_fileBuf S_OK 1 513 ((), []) =
      (none, ((), [])) ∧
    GetFileDataCallback (recordWrite okWrite) true main_gs_fileBuf S_OK 0 256 ((), []) =
      (none, ((), [])) :=
  ⟨(GetFileDataCallback_partial_request okWrite true main_gs_fileBuf S_OK 0 0 () []).1 rfl,
   (GetFileDataCallback_partial_request okWrite true main_gs_fileBuf S_OK 1 513 () []).2
     (by decide) (by decide),
   (GetFileDataCallback_partial_request okWrite true main_gs_fileBuf S_OK 0 256 () []).2
     (by decide) (by decide)⟩

/-- C13 (counterexample): the request `ByteOffset = 0`, `Length = 0` is not the
whole-file request, yet the call returns `S_OK`. -/
theorem GetFileDataCallback_zero_length_counterexample :
    ¬ (∀ ByteOffset Length : Nat, ¬ (ByteOffset = 0 ∧ Length = sizeof_gs_fileBuf) →
        (GetFileDataCallback (recordWrite okWrite) true main_gs_fileBuf S_OK ByteOffset Length
            ((), [])).1 ≠ some S_OK ∧
          (GetFileDataCallback (recordWrite okWrite) true main_gs_fileBuf S_OK ByteOffset
            Length ((), [])).2.2 = []) := by
  intro h
  exact (h 0 0 (by decide)).1 rfl

/-- C14 (amended): with no fault injected, on the whole-file request with the
buffer allocated, both writes are issued in order whatever the first one
answers, and the call returns `S_OK` exactly when both succeeded.  When a
write fails the call does not return: the final `VERIFY` ends the process, so
the status the failing write reported is not passed on. -/
theorem GetFileDataCallback_write_failure {σ : Type}
    (write : σ → WriteCall → HRESULT × σ) (gs_fileBuf : List Nat) (s0 : σ)
    (log : List WriteCall) :
    (GetFileDataCallback (recordWrite write) true gs_fileBuf S_OK 0 sizeof_gs_fileBuf
        (s0, log)).2.2 =
      log ++
        [{ data := gs_fileBuf.take (sizeof_gs_fileBuf / 2), byteOffset := 0,
           length := sizeof_gs_fileBuf / 2 },
         { data :=
             ((gs_fileBuf.take sizeof_gs_fileBuf).drop (sizeof_gs_fileBuf / 2)).take
               (sizeof_gs_fileBuf - sizeof_gs_fileBuf / 2),
           byteOffset := sizeof_gs_fileBuf / 2,
           length := sizeof_gs_fileBuf - sizeof_gs_fileBuf / 2 }] ∧
    ((GetFileDataCallback (recordWrite write) true gs_fileBuf S_OK 0 sizeof_gs_fileBuf
        (s0, log)).1 = some S_OK ↔
      SUCCEEDED (write s0
          { data := gs_fileBuf.take (sizeof_gs_fileBuf / 2), byteOffset := 0,
            length := sizeof_gs_fileBuf / 2 }).1 = true ∧
        SUCCEEDED (write
          (write s0
            { data := gs_fileBuf.take (sizeof_gs_fileBuf / 2), byteOffset := 0,
              length := sizeof_gs_fileBuf / 2 }).2
          { data :=
              ((gs_fileBuf.take sizeof_gs_fileBuf).drop (sizeof_gs_fileBuf / 2)).take
                (sizeof_gs_fileBuf - sizeof_gs_fileBuf / 2),
            byteOffset := sizeof_gs_fileBuf / 2,
            length := sizeof_gs_fileBuf - sizeof_gs_fileBuf / 2 }).1 = true) ∧
    ((GetFileDataCallback (recordWrite write) true gs_fileBuf S_OK 0 sizeof_gs_fileBuf
        (s0, log)).1 = some S_OK ∨
      (GetFileDataCallback (recordWrite write) true gs_fileBuf S_OK 0 sizeof_gs_fileBuf
        (s0, log)).1 = none) := by
  have htake : (gs_fileBuf.take 513).take 256 = gs_fileBuf.take 256 := by
    rw [List.take_take]
    rfl
  refine ⟨?_, ?_, ?_⟩
  · simp only [GetFileDataCallback, recordWrite, sizeof_gs_fileBuf, S_OK]
    simp only [show (513 : Nat) ≠ 0 from by decide, if_false, if_true, Bool.not_true,
      ne_eq, not_true_eq_false, Bool.false_eq_true]
    split_ifs <;> simp [htake]
  · simp only [GetFileDataCallback, recordWrite, sizeof_gs_fileBuf, S_OK]
    simp only [show (513 : Nat) ≠ 0 from by decide, if_false, if_true, Bool.not_true,
      ne_eq, not_true_eq_false, Bool.false_eq_true]
    split_ifs with h <;> simp_all [htake]
  · simp only [GetFileDataCallback, recordWrite, sizeof_gs_fileBuf, S_OK]
    simp only [show (513 : Nat) ≠ 0 from by decide, if_false, if_true, Bool.not_true,
      ne_eq, not_true_eq_false, Bool.false_eq_true]
    split_ifs <;> simp

/-- C14 (counterexample): a stream whose writes fail with `E_UNEXPECTED`.  The
call does not return that status (the process ends at the `VERIFY`), and the
second write was issued after the failed first one. -/
theorem GetFileDataCallback_write_failure_counterexample :
    (failWrite () { data := main_gs_fileBuf.take 256, byteOffset := 0, length := 256 }).1 =
      E_UNEXPECTED ∧
    (GetFileDataCallback (recordWrite failWrite) true main_gs_fileBuf S_OK 0 sizeof_gs_fileBuf
        ((), [])).1 ≠ some E_UNEXPECTED ∧
    (GetFileDataCallback (recordWrite failWrite) true main_gs_fileBuf S_OK 0 sizeof_gs_fileBuf
        ((), [])).2.2.length = 2 := by
  refine ⟨rfl, ?_, ?_⟩
  · simp [GetFileDataCallback, recordWrite, failWrite, sizeof_gs_fileBuf, SUCCEEDED,
      E_UNEXPECTED, S_OK]
  · simp [GetFileDataCallback, recordWrite, failWrite, sizeof_gs_fileBuf, SUCCEEDED,
      E_UNEXPECTED, S_OK]

/-! ## CRC-32C is incremental -/

theorem not32_not32 (x : Nat) : not32 (not32 x) = x := by
  unfold not32
  exact Nat.xor_cancel_right _ _

/-- Feeding `a` and then `b` from the value `crc32` returned for `a`. -/
theorem crc32_append (s : Nat) (a b : List Nat) (ha : ∀ x ∈ a, x < 256)
    (hb : ∀ x ∈ b, x < 256) :
    crc32 (crc32 s a) b = crc32 s (a ++ b) := by
  have hab : ∀ x ∈ a ++ b, x < 256 := by
    intro x hx
    rcases List.mem_append.1 hx with h | h
    · exact ha x h
    · exact hb x h
  unfold crc32
  rw [not32_not32, crc32_loop_eq_foldl a _ ha, crc32_loop_eq_foldl b _ hb,
    crc32_loop_eq_foldl (a ++ b) _ hab, List.foldl_append]

/-- The loop of `MaterializeFile` over non-empty chunks and the end of the
file. -/
theorem MaterializeFile_loop_chunks (chunks : List (List Nat)) (crc total : Nat)
    (hne : ∀ c ∈ chunks, c ≠ []) (hbytes : ∀ c ∈ chunks, ∀ x ∈ c, x < 256) :
    ∃ n, MaterializeFile_loop (readsOfChunks chunks) crc total =
      some (crc32 crc chunks.flatten, n) := by
  induction chunks generalizing crc total with
  | nil =>
    refine ⟨total, ?_⟩
    have h : crc32 crc [] = crc := by
      unfold crc32
      rw [crc32_loop_eq_foldl [] _ (by simp)]
      exact not32_not32 crc
    simp [readsOfChunks, MaterializeFile_loop, h]
  | cons c chunks ih =>
    have hc : c ≠ [] := hne c (List.mem_cons_self _ _)
    have hlen : c.length > 0 := List.length_pos.2 hc
    obtain ⟨n, hn⟩ := ih (crc32 crc c) ((total + c.length) % 4294967296)
      (fun d hd => hne d (List.mem_cons_of_mem _ hd))
      (fun d hd => hbytes d (List.mem_cons_of_mem _ hd))
    refine ⟨n, ?_⟩
    have hrec : readsOfChunks (c :: chunks) =
        { ok := true, data := c } :: readsOfChunks chunks := rfl
    rw [hrec, MaterializeFile_loop]
    simp only [Bool.true_and, decide_eq_true_eq, if_pos hlen]
    rw [hn, List.flatten_cons,
      crc32_append crc c chunks.flatten (hbytes c (List.mem_cons_self _ _))
        (fun x hx => by
          obtain ⟨d, hd, hxd⟩ := List.mem_flatten.1 hx
          exact hbytes d (List.mem_cons_of_mem _ hd) x hxd)]

/-- C20: `crc32` is incremental.  For every seed and all byte sequences `a`
and `b` of any lengths, `crc32(crc32(s, a), b) = crc32(s, a ++ b)`; hence the
checksum `MaterializeFile` accumulates over successive non-empty read chunks
is `crc32(0, content)` for the concatenated content, wherever the chunk
boundaries fall. -/
theorem crc32_incremental (s : Nat) (a b : List Nat) (chunks : List (List Nat))
    (ha : ∀ x ∈ a, x < 256) (hb : ∀ x ∈ b, x < 256)
    (hne : ∀ c ∈ chunks, c ≠ []) (hbytes : ∀ c ∈ chunks, ∀ x ∈ c, x < 256) :
    crc32 (crc32 s a) b = crc32 s (a ++ b) ∧
    (MaterializeFile_crc (readsOfChunks chunks)).map Prod.fst =
      some (crc32 0 chunks.flatten) := by
  refine ⟨crc32_append s a b ha hb, ?_⟩
  obtain ⟨n, hn⟩ := MaterializeFile_loop_chunks chunks 0 0 hne hbytes
  unfold MaterializeFile_crc
  rw [hn]
  rfl

/-- Witness for C20: a first part of five bytes, not a multiple of four, and
the same nine bytes read in chunks of two, three and four. -/
theorem crc32_incremental_witness :
    crc32 (crc32 0 [49, 50, 51, 52, 53]) [54, 55, 56, 57] =
      crc32 0 ([49, 50, 51, 52, 53] ++ [54, 55, 56, 57]) ∧
    (MaterializeFile_crc (readsOfChunks [[49, 50], [51, 52, 53], [54, 55, 56, 57]])).map
        Prod.fst =
      some (crc32 0 [[49, 50], [51, 52, 53], [54, 55, 56, 57]].flatten) :=
  crc32_incremental 0 [49, 50, 51, 52, 53] [54, 55, 56, 57]
    [[49, 50], [51, 52, 53], [54, 55, 56, 57]] (by decide) (by decide) (by decide) (by decide)

/-! ## `NtfsFileNameCompare` against the lexicographic order of folded names -/

theorem foldedName_nil (fold : Nat → Nat) : foldedName fold [] = [] := rfl

theorem foldedName_cons_zero (fold : Nat → Nat) (s : Name) :
    foldedName fold (0 :: s) = [] := by
  simp [foldedName]

theorem foldedName_cons (fold : Nat → Nat) (c : Nat) (s : Name) (hc : c ≠ 0) :
    foldedName fold (c :: s) = fold c :: foldedName fold s := by
  simp [foldedName, List.takeWhile_cons, hc]

theorem signOf_sub (x y : Nat) :
    signOf ((x : Int) - (y : Int)) =
      if x < y then Ordering.lt else if y < x then Ordering.gt else Ordering.eq := by
  unfold signOf
  split_ifs <;> first | rfl | omega

/-- The sign of `NtfsFileNameCompare` is the lexicographic comparison of the
folded names, provided the fold sends the terminator, and nothing else, to
`0`. -/
theorem NtfsFileNameCompare_sign (up : Nat → Nat) (h0 : up 0 = 0)
    (hnz : ∀ c, up c = 0 → c = 0) (a b : Name) :
    signOf (NtfsFileNameCompare up a b) =
      lexCompare (foldedName up a) (foldedName up b) := by
  have hpos : ∀ c, c ≠ 0 → 0 < up c := fun c hc => Nat.pos_of_ne_zero (fun h => hc (hnz c h))
  have hnil : ∀ ct : Name, signOf (NtfsFileNameCompare up [] ct) =
      lexCompare [] (foldedName up ct) := by
    intro ct
    rw [NtfsFileNameCompare_nil, signOf_sub, h0]
    cases ct with
    | nil => simp [deref, h0, foldedName_nil, lexCompare]
    | cons y ct =>
      by_cases hy : y = 0
      · subst hy
        simp [deref, h0, foldedName_cons_zero, lexCompare]
      · simp [deref, hpos y hy, foldedName_cons up y ct hy, lexCompare]
  induction a generalizing b with
  | nil => exact hnil b
  | cons x a ih =>
    by_cases hx : x = 0
    · subst hx
      have h1 : NtfsFileNameCompare up (0 :: a) b = NtfsFileNameCompare up [] b := by
        simp [NtfsFileNameCompare]
      rw [h1, foldedName_cons_zero]
      exact hnil b
    · rw [foldedName_cons up x a hx]
      have hxp := hpos x hx
      cases b with
      | nil =>
        have h1 : NtfsFileNameCompare up (x :: a) [] = (up x : Int) - 0 := by
          have hne : ¬ up x = 0 := by omega
          simp [NtfsFileNameCompare, deref, h0, hne]
        rw [h1, foldedName_nil]
        simp only [lexCompare, signOf]
        split_ifs <;> first | rfl | omega
      | cons y b =>
        by_cases hy : y = 0
        · subst hy
          have h1 : NtfsFileNameCompare up (x :: a) (0 :: b) = (up x : Int) - 0 := by
            have hne : ¬ up x = 0 := by omega
            simp [NtfsFileNameCompare, deref, h0, hne]
          rw [h1, foldedName_cons_zero]
          simp only [lexCompare, signOf]
          split_ifs <;> first | rfl | omega
        · rw [foldedName_cons up y b hy]
          by_cases hxy : up x = up y
          · have h1 : NtfsFileNameCompare up (x :: a) (y :: b) = NtfsFileNameCompare up a b := by
              simp [NtfsFileNameCompare, deref, hxy, hx]
            rw [h1, ih b]
            simp [lexCompare, hxy]
          · have h1 : NtfsFileNameCompare up (x :: a) (y :: b) = (up x : Int) - (up y : Int) := by
              simp [NtfsFileNameCompare, deref, hxy]
            rw [h1, signOf_sub]
            simp only [lexCompare]
            split_ifs <;> first | rfl | omega

theorem signOf_lt (n : Int) : signOf n = Ordering.lt ↔ n < 0 := by
  unfold signOf
  split_ifs <;> simp <;> omega

theorem signOf_eq (n : Int) : signOf n = Ordering.eq ↔ n = 0 := by
  unfold signOf
  split_ifs <;> simp <;> omega

theorem signOf_gt (n : Int) : signOf n = Ordering.gt ↔ 0 < n := by
  unfold signOf
  split_ifs <;> simp <;> omega

theorem lexCompare_eq (x y : List Nat) : lexCompare x y = Ordering.eq ↔ x = y := by
  induction x generalizing y with
  | nil => cases y <;> simp [lexCompare]
  | cons a x ih =>
    cases y with
    | nil => simp [lexCompare]
    | cons b y =>
      simp only [lexCompare]
      split_ifs with h1 h2
      · simp; omega
      · simp; omega
      · have : a = b := by omega
        simp [ih, this]

theorem lexCompare_swap (x y : List Nat) :
    lexCompare x y = Ordering.lt ↔ lexCompare y x = Ordering.gt := by
  induction x generalizing y with
  | nil => cases y <;> simp [lexCompare]
  | cons a x ih =>
    cases y with
    | nil => simp [lexCompare]
    | cons b y =>
      simp only [lexCompare]
      split_ifs <;> first | omega | simp | exact ih y

/-- The lexicographic order is a weak order: an element is before the larger
or after the smaller of two ordered ones. -/
theorem lexCompare_weak (x y z : List Nat) (h : lexCompare x y = Ordering.lt) :
    lexCompare x z = Ordering.lt ∨ lexCompare z y = Ordering.lt := by
  induction x generalizing y z with
  | nil =>
    cases y with
    | nil => simp [lexCompare] at h
    | cons b y =>
      cases z with
      | nil => right; simp [lexCompare]
      | cons c z => left; simp [lexCompare]
  | cons a x ih =>
    cases y with
    | nil => simp [lexCompare] at h
    | cons b y =>
      cases z with
      | nil => right; simp [lexCompare]
      | cons c z =>
        simp only [lexCompare] at h ⊢
        by_cases hac : a < c
        · left; simp [hac]
        · by_cases hca : c < a
          · right
            have hcb : c < b := by
              split_ifs at h <;> omega
            simp [hcb]
          · have hac' : a = c := by omega
            subst hac'
            simp only [Nat.lt_irrefl, if_false]
            split_ifs at h ⊢ with h1 h2
            · right; trivial
            · exact ih y z h

theorem NtfsFileNameCompare_lt_iff (up : Nat → Nat) (h0 : up 0 = 0)
    (hnz : ∀ c, up c = 0 → c = 0) (a b : Name) :
    NtfsFileNameCompare up a b < 0 ↔
      lexCompare (foldedName up a) (foldedName up b) = Ordering.lt := by
  rw [← NtfsFileNameCompare_sign up h0 hnz, signOf_lt]

theorem NtfsFileNameCompare_zero_iff (up : Nat → Nat) (h0 : up 0 = 0)
    (hnz : ∀ c, up c = 0 → c = 0) (a b : Name) :
    NtfsFileNameCompare up a b = 0 ↔ foldedName up a = foldedName up b := by
  rw [← signOf_eq, NtfsFileNameCompare_sign up h0 hnz, lexCompare_eq]

theorem NtfsFileNameCompare_gt_iff (up : Nat → Nat) (h0 : up 0 = 0)
    (hnz : ∀ c, up c = 0 → c = 0) (a b : Name) :
    0 < NtfsFileNameCompare up a b ↔ NtfsFileNameCompare up b a < 0 := by
  rw [← signOf_gt, NtfsFileNameCompare_sign up h0 hnz, ← lexCompare_swap,
    NtfsFileNameCompare_lt_iff up h0 hnz]

/-- `NtfsFileNameCompare` is a weak order. -/
theorem NtfsFileNameCompare_weak (up : Nat → Nat) (h0 : up 0 = 0)
    (hnz : ∀ c, up c = 0 → c = 0) (a b c : Name)
    (h : NtfsFileNameCompare up a b < 0) :
    NtfsFileNameCompare up a c < 0 ∨ NtfsFileNameCompare up c b < 0 := by
  rw [NtfsFileNameCompare_lt_iff up h0 hnz] at h ⊢
  rw [NtfsFileNameCompare_lt_iff up h0 hnz]
  exact lexCompare_weak _ _ _ h

theorem hup_of_zero (up : Nat → Nat) (h0 : up 0 = 0) (hnz : ∀ c, up c = 0 → c = 0) :
    ∀ c, up c = up 0 → c = 0 := by
  intro c hc
  rw [h0] at hc
  exact hnz c hc

theorem towupper_zero_eq : towupper 0 = 0 := by decide

theorem towupper_eq_zero (c : Nat) (h : towupper c = 0) : c = 0 := by
  unfold towupper at h
  split_ifs at h <;> omega

theorem towlower_zero_eq : towlower 0 = 0 := by decide

theorem towlower_eq_zero (c : Nat) (h : towlower c = 0) : c = 0 := by
  unfold towlower at h
  split_ifs at h
  omega

/-- C17: `NtfsFileNameCompare` is a consistent ordering policy, for every
fold that sends the terminator, and only it, to `0` (as `towupper` does).
The relation `NtfsFileNameCompare(a, b) < 0` is irreflexive and transitive;
swapping the arguments swaps the sign; the result is `0` exactly when the
folded names are equal; the sign is the lexicographic comparison of the
folded names, a proper prefix first; and of any two names one sorts before
the other or their folded names are equal. -/
theorem NtfsFileNameCompare_strict_total_order (up : Nat → Nat) (h0 : up 0 = 0)
    (hnz : ∀ c, up c = 0 → c = 0) :
    (∀ a, ¬ NtfsFileNameCompare up a a < 0) ∧
    (∀ a b c, NtfsFileNameCompare up a b < 0 → NtfsFileNameCompare up b c < 0 →
      NtfsFileNameCompare up a c < 0) ∧
    (∀ a b, (NtfsFileNameCompare up a b < 0 ↔ 0 < NtfsFileNameCompare up b a) ∧
      (NtfsFileNameCompare up a b = 0 ↔ NtfsFileNameCompare up b a = 0)) ∧
    (∀ a b, NtfsFileNameCompare up a b = 0 ↔ foldedName up a = foldedName up b) ∧
    (∀ a b, signOf (NtfsFileNameCompare up a b) =
      lexCompare (foldedName up a) (foldedName up b)) ∧
    (∀ a b, NtfsFileNameCompare up a b < 0 ∨ foldedName up a = foldedName up b ∨
      NtfsFileNameCompare up b a < 0) := by
  refine ⟨?_, NtfsFileNameCompare_trans up (hup_of_zero up h0 hnz), ?_,
    NtfsFileNameCompare_zero_iff up h0 hnz, NtfsFileNameCompare_sign up h0 hnz, ?_⟩
  · intro a h
    rw [NtfsFileNameCompare_self] at h
    exact absurd h (by decide)
  · intro a b
    refine ⟨(NtfsFileNameCompare_gt_iff up h0 hnz b a).symm, ?_⟩
    rw [NtfsFileNameCompare_zero_iff up h0 hnz, NtfsFileNameCompare_zero_iff up h0 hnz]
    exact eq_comm
  · intro a b
    rcases Int.lt_trichotomy (NtfsFileNameCompare up a b) 0 with h | h | h
    · exact Or.inl h
    · exact Or.inr (Or.inl ((NtfsFileNameCompare_zero_iff up h0 hnz a b).1 h))
    · exact Or.inr (Or.inr ((NtfsFileNameCompare_gt_iff up h0 hnz a b).1 h))

/-- Witness for C17: the fold `towupper` on `FileA` and `File_`. -/
theorem NtfsFileNameCompare_strict_total_order_witness :
    signOf (NtfsFileNameCompare towupper name_FileA name_File_) =
      lexCompare (foldedName towupper name_FileA) (foldedName towupper name_File_) ∧
    (NtfsFileNameCompare towupper name_FileA name_File_ < 0 ↔
      0 < NtfsFileNameCompare towupper name_File_ name_FileA) :=
  have h := NtfsFileNameCompare_strict_total_order towupper towupper_zero_eq towupper_eq_zero
  ⟨h.2.2.2.2.1 name_FileA name_File_, (h.2.2.1 name_FileA name_File_).1⟩

/-! ## Lookup in the file list -/

theorem filelist_find_some (Comparer : COMPARER) (key : Name) (l : filelist_t)
    (q : Name × PRJ_PLACEHOLDER_INFO) (h : filelist_find Comparer key l = some q) :
    q ∈ l ∧ equivalentNames Comparer q.1 key := by
  induction l with
  | nil => simp [filelist_find] at h
  | cons p l ih =>
    unfold filelist_find at h
    split_ifs at h with h1 h2
    · exact ⟨List.mem_cons_of_mem _ (ih h).1, (ih h).2⟩
    · have hq : p = q := Option.some.inj h
      subst hq
      refine ⟨List.mem_cons_self _ _, ?_, ?_⟩
      · simpa [FileNameComparer] using h1
      · simpa [FileNameComparer] using h2

/-- In a sorted file list under a weak order the search finds the entry whose
name is equivalent to the key. -/
theorem filelist_find_of_mem (Comparer : COMPARER)
    (hweak : ∀ a b c, Comparer a b < 0 → Comparer a c < 0 ∨ Comparer c b < 0)
    (key : Name) (l : filelist_t) (hl : filelist_sorted Comparer l)
    (q : Name × PRJ_PLACEHOLDER_INFO) (hq : q ∈ l)
    (heq : equivalentNames Comparer q.1 key) :
    filelist_find Comparer key l = some q := by
  induction l with
  | nil => simp at hq
  | cons p l ih =>
    unfold filelist_sorted at hl ih
    rw [List.pairwise_cons] at hl
    unfold filelist_find
    rcases List.mem_cons.1 hq with rfl | hq
    · have h1 : ¬ FileNameComparer Comparer q.1 key = true := by
        simpa [FileNameComparer] using heq.1
      have h2 : ¬ FileNameComparer Comparer key q.1 = true := by
        simpa [FileNameComparer] using heq.2
      rw [if_neg h1, if_neg h2]
    · have hpq := hl.1 q hq
      have h1 : FileNameComparer Comparer p.1 key = true := by
        rcases hweak _ _ key hpq with h | h
        · simpa [FileNameComparer] using h
        · exact absurd h heq.2
      rw [if_pos h1]
      exact ih hl.2 hq

theorem filelist_find_none_iff (Comparer : COMPARER)
    (hweak : ∀ a b c, Comparer a b < 0 → Comparer a c < 0 ∨ Comparer c b < 0)
    (key : Name) (l : filelist_t) (hl : filelist_sorted Comparer l) :
    filelist_find Comparer key l = none ↔
      ∀ q ∈ l, ¬ equivalentNames Comparer q.1 key := by
  constructor
  · intro h q hq heq
    rw [filelist_find_of_mem Comparer hweak key l hl q hq heq] at h
    cases h
  · intro h
    cases hf : filelist_find Comparer key l with
    | none => rfl
    | some q =>
      have := filelist_find_some Comparer key l q hf
      exact absurd this.2 (h q this.1)

theorem not_found_ne_ok : HRESULT_FROM_WIN32 ERROR_NOT_FOUND ≠ S_OK := by decide

/-- C16 (amended): `GetPlaceholderInfoCallback` on a sorted file list under a
comparer that is a weak order.  It returns `HRESULT_FROM_WIN32(ERROR_NOT_FOUND)` if and
only if no name of the file list is equivalent to the path, and then the
writer is not called.  When a stored name is equivalent to the path, the
writer is called exactly once, with the path and the record stored under that
name, and the call returns `S_OK` when the writer succeeds (the `VERIFY` ends
the process otherwise). -/
theorem GetPlaceholderInfoCallback_lookup {σ : Type} (Comparer : COMPARER)
    (hweak : ∀ a b c, Comparer a b < 0 → Comparer a c < 0 ∨ Comparer c b < 0)
    (writer : σ → Name → PRJ_PLACEHOLDER_INFO → HRESULT × σ)
    (gs_fileList : filelist_t) (hl : filelist_sorted Comparer gs_fileList)
    (FilePathName : Name) (w : σ) (log : List (Name × PRJ_PLACEHOLDER_INFO)) :
    ((GetPlaceholderInfoCallback Comparer (recordPlaceholder writer) gs_fileList FilePathName
        (w, log)).1 = some (HRESULT_FROM_WIN32 ERROR_NOT_FOUND) ↔
      ∀ q ∈ gs_fileList, ¬ equivalentNames Comparer q.1 FilePathName) ∧
    ((∀ q ∈ gs_fileList, ¬ equivalentNames Comparer q.1 FilePathName) →
      (GetPlaceholderInfoCallback Comparer (recordPlaceholder writer) gs_fileList FilePathName
        (w, log)).2 = (w, log)) ∧
    (∀ q ∈ gs_fileList, equivalentNames Comparer q.1 FilePathName →
      (GetPlaceholderInfoCallback Comparer (recordPlaceholder writer) gs_fileList FilePathName
          (w, log)).2.2 = log ++ [(FilePathName, q.2)] ∧
        (SUCCEEDED (writer w FilePathName q.2).1 = true →
          (GetPlaceholderInfoCallback Comparer (recordPlaceholder writer) gs_fileList
            FilePathName (w, log)).1 = some S_OK) ∧
        (SUCCEEDED (writer w FilePathName q.2).1 = false →
          (GetPlaceholderInfoCallback Comparer (recordPlaceholder writer) gs_fileList
            FilePathName (w, log)).1 = none)) := by
  have hnone := filelist_find_none_iff Comparer hweak FilePathName gs_fileList hl
  refine ⟨?_, ?_, ?_⟩
  · rw [← hnone]
    unfold GetPlaceholderInfoCallback
    cases hf : filelist_find Comparer FilePathName gs_fileList with
    | none => simp
    | some q =>
      simp only [recordPlaceholder]
      split_ifs
      · simp only [Option.some.injEq, reduceCtorEq, iff_false]
        exact fun h => not_found_ne_ok h.symm
      · simp
  · intro h
    unfold GetPlaceholderInfoCallback
    rw [hnone.2 h]
  · intro q hq heq
    have hf := filelist_find_of_mem Comparer hweak FilePathName gs_fileList hl q hq heq
    unfold GetPlaceholderInfoCallback
    rw [hf]
    simp only [recordPlaceholder]
    refine ⟨?_, ?_, ?_⟩
    · split_ifs <;> rfl
    · intro hs
      rw [if_pos hs]
    · intro hs
      rw [if_neg (by rw [hs]; decide)]

/-- Witness for C16: the path `filea` in the file list of `ReproduceSortingBug`
under `NtfsFileNameCompare` finds the record stored under `FileA`. -/
theorem GetPlaceholderInfoCallback_lookup_witness :
    (GetPlaceholderInfoCallback (NtfsFileNameCompare towupper) (recordPlaceholder okPlaceholder)
        (ReproduceSortingBug_fileList (NtfsFileNameCompare towupper)) name_filea
        ((), [])).2.2 = [] ++ [(name_filea, sortingBug_pi)] ∧
    (GetPlaceholderInfoCallback (NtfsFileNameCompare towupper) (recordPlaceholder okPlaceholder)
        (ReproduceSortingBug_fileList (NtfsFileNameCompare towupper)) name_filea
        ((), [])).1 = some S_OK ∧
    (GetPlaceholderInfoCallback (NtfsFileNameCompare towupper) (recordPlaceholder okPlaceholder)
        (ReproduceSortingBug_fileList (NtfsFileNameCompare towupper)) name_FileC
        ((), [])).1 = some (HRESULT_FROM_WIN32 ERROR_NOT_FOUND) :=
  have h := (GetPlaceholderInfoCallback_lookup (NtfsFileNameCompare towupper)
    (NtfsFileNameCompare_weak towupper towupper_zero_eq towupper_eq_zero) okPlaceholder
    (ReproduceSortingBug_fileList (NtfsFileNameCompare towupper)) (by decide) name_filea ()
    []).2.2 (name_FileA, sortingBug_pi) (by decide) (by decide)
  have h2 := (GetPlaceholderInfoCallback_lookup (NtfsFileNameCompare towupper)
    (NtfsFileNameCompare_weak towupper towupper_zero_eq towupper_eq_zero) okPlaceholder
    (ReproduceSortingBug_fileList (NtfsFileNameCompare towupper)) (by decide) name_FileC ()
    []).1
  ⟨h.1, h.2.1 rfl, h2.2 (by decide)⟩

/-- C16 (counterexample): the path `filea` is equivalent to the stored name
`FileA`, so the lookup is a hit and the writer receives the stored record; the
writer fails with `E_UNEXPECTED`, and the call does not return `S_OK`: the
`VERIFY` ends the process. -/
theorem GetPlaceholderInfoCallback_failing_writer_counterexample :
    equivalentNames (NtfsFileNameCompare towupper) name_FileA name_filea ∧
    (name_FileA, sortingBug_pi) ∈
      ReproduceSortingBug_fileList (NtfsFileNameCompare towupper) ∧
    (GetPlaceholderInfoCallback (NtfsFileNameCompare towupper)
        (recordPlaceholder failPlaceholder)
        (ReproduceSortingBug_fileList (NtfsFileNameCompare towupper)) name_filea
        ((), [])).2.2 = [(name_filea, sortingBug_pi)] ∧
    (GetPlaceholderInfoCallback (NtfsFileNameCompare towupper)
        (recordPlaceholder failPlaceholder)
        (ReproduceSortingBug_fileList (NtfsFileNameCompare towupper)) name_filea
        ((), [])).1 ≠ some S_OK ∧
    (GetPlaceholderInfoCallback (NtfsFileNameCompare towupper)
        (recordPlaceholder failPlaceholder)
        (ReproduceSortingBug_fileList (NtfsFileNameCompare towupper)) name_filea
        ((), [])).1 = none := by
  decide

/-! ## Inserting a name twice -/

/-- The second insertion of a name changes nothing. -/
theorem filelist_insert_twice (Comparer : COMPARER) (hirr : ∀ a, ¬ Comparer a a < 0)
    (name : Name) (e1 e2 : PRJ_PLACEHOLDER_INFO) (l : filelist_t) :
    filelist_insert Comparer (name, e2) (filelist_insert Comparer (name, e1) l) =
      filelist_insert Comparer (name, e1) l := by
  have hself : ¬ FileNameComparer Comparer name name = true := by
    simpa [FileNameComparer] using hirr name
  induction l with
  | nil => simp [filelist_insert, hself]
  | cons q l ih =>
    by_cases h1 : FileNameComparer Comparer name q.1 = true
    · simp [filelist_insert, h1, hself]
    · by_cases h2 : FileNameComparer Comparer q.1 name = true
      · simp only [filelist_insert, h1, h2, if_true, if_false]
        rw [ih]
        simp
      · simp [filelist_insert, h1, h2]

/-- The lookup of a name after its insertion: the entry an equivalent name
already had, or else the inserted one. -/
theorem filelist_find_insert (Comparer : COMPARER) (hirr : ∀ a, ¬ Comparer a a < 0)
    (hasym : ∀ a b, Comparer a b < 0 → ¬ Comparer b a < 0)
    (name : Name) (e1 : PRJ_PLACEHOLDER_INFO) (l : filelist_t) :
    filelist_find Comparer name (filelist_insert Comparer (name, e1) l) =
      some ((filelist_find Comparer name l).getD (name, e1)) := by
  have hself : ¬ FileNameComparer Comparer name name = true := by
    simpa [FileNameComparer] using hirr name
  induction l with
  | nil => simp [filelist_insert, filelist_find, hself]
  | cons q l ih =>
    by_cases h1 : FileNameComparer Comparer name q.1 = true
    · have h2 : ¬ FileNameComparer Comparer q.1 name = true := by
        have := hasym name q.1 (by simpa [FileNameComparer] using h1)
        simpa [FileNameComparer] using this
      simp [filelist_insert, filelist_find, h1, h2, hself]
    · by_cases h2 : FileNameComparer Comparer q.1 name = true
      · simp only [filelist_insert, filelist_find, h1, h2, if_true, if_false]
        exact ih
      · simp [filelist_insert, filelist_find, h1, h2]

/-- In a sorted file list under a weak order at most one name is equivalent
to a given name. -/
theorem filelist_equivalent_at_most_one (Comparer : COMPARER)
    (hweak : ∀ a b c, Comparer a b < 0 → Comparer a c < 0 ∨ Comparer c b < 0)
    (name : Name) (l : filelist_t) (hl : filelist_sorted Comparer l) :
    (l.filter (fun q => decide (equivalentNames Comparer q.1 name))).length ≤ 1 := by
  have hs : (l.filter (fun q => decide (equivalentNames Comparer q.1 name))).Pairwise
      (fun p q => Comparer p.1 q.1 < 0) := List.Pairwise.sublist (List.filter_sublist _) hl
  have hall : ∀ q ∈ l.filter (fun q => decide (equivalentNames Comparer q.1 name)),
      equivalentNames Comparer q.1 name := by
    intro q hq
    simpa using (List.mem_filter.1 hq).2
  cases hf : l.filter (fun q => decide (equivalentNames Comparer q.1 name)) with
  | nil => simp
  | cons x rest =>
    cases rest with
    | nil => simp
    | cons y rest =>
      exfalso
      rw [hf] at hs hall
      have hxy : Comparer x.1 y.1 < 0 := (List.pairwise_cons.1 hs).1 y (by simp)
      have hx := hall x (by simp)
      have hy := hall y (by simp)
      rcases hweak _ _ name hxy with h | h
      · exact hx.1 h
      · exact hy.2 h

/-- C12 (amended): inserting `(name, e1)` and then `(name, e2)` into a sorted
file list leaves exactly one entry equivalent to the name, and the second
insertion changes nothing: a lookup of the name returns the entry stored
first, which is `(name, e1)` when no equivalent name was in the list before
and the entry already stored otherwise; `e2` is dropped.  The comparer is a
strict weak order. -/
theorem filelist_insert_keeps_first (Comparer : COMPARER)
    (hirr : ∀ a, ¬ Comparer a a < 0)
    (htrans : ∀ a b c, Comparer a b < 0 → Comparer b c < 0 → Comparer a c < 0)
    (hweak : ∀ a b c, Comparer a b < 0 → Comparer a c < 0 ∨ Comparer c b < 0)
    (l : filelist_t) (hl : filelist_sorted Comparer l) (name : Name)
    (e1 e2 : PRJ_PLACEHOLDER_INFO) :
    filelist_insert Comparer (name, e2) (filelist_insert Comparer (name, e1) l) =
      filelist_insert Comparer (name, e1) l ∧
    ((filelist_insert Comparer (name, e2) (filelist_insert Comparer (name, e1) l)).filter
      (fun q => decide (equivalentNames Comparer q.1 name))).length = 1 ∧
    (filelist_find Comparer name l = none →
      filelist_find Comparer name
        (filelist_insert Comparer (name, e2) (filelist_insert Comparer (name, e1) l)) =
          some (name, e1)) ∧
    (∀ q, filelist_find Comparer name l = some q →
      filelist_find Comparer name
        (filelist_insert Comparer (name, e2) (filelist_insert Comparer (name, e1) l)) =
          some q) := by
  have hasym : ∀ a b, Comparer a b < 0 → ¬ Comparer b a < 0 :=
    fun a b hab hba => hirr a (htrans _ _ _ hab hba)
  have htwice := filelist_insert_twice Comparer hirr name e1 e2 l
  have hfind := filelist_find_insert Comparer hirr hasym name e1 l
  have hsorted := filelist_insert_sorted Comparer htrans (name, e1) l hl
  rw [htwice]
  refine ⟨rfl, ?_, ?_, ?_⟩
  · apply Nat.le_antisymm
    · exact filelist_equivalent_at_most_one Comparer hweak name _ hsorted
    · have hmem := filelist_find_some Comparer name _ _ hfind
      exact List.length_pos_of_mem
        (List.mem_filter.2 ⟨hmem.1, decide_eq_true hmem.2⟩)
  · intro h
    rw [hfind, h]
    rfl
  · intro q h
    rw [hfind, h]
    rfl

/-- Witness for C12: `FileA` inserted twice, with different records, into
the file list that holds `Fileb`. -/
theorem filelist_insert_keeps_first_witness :
    filelist_find (NtfsFileNameCompare towupper) name_FileA
        (filelist_insert (NtfsFileNameCompare towupper) (name_FileA, other_pi)
          (filelist_insert (NtfsFileNameCompare towupper) (name_FileA, sortingBug_pi)
            [(name_Fileb, sortingBug_pi)])) =
      some (name_FileA, sortingBug_pi) :=
  (filelist_insert_keeps_first (NtfsFileNameCompare towupper)
    (fun a h => by rw [NtfsFileNameCompare_self] at h; exact absurd h (by decide))
    (NtfsFileNameCompare_trans towupper towupper_zero)
    (NtfsFileNameCompare_weak towupper towupper_zero_eq towupper_eq_zero)
    [(name_Fileb, sortingBug_pi)] (by decide) name_FileA sortingBug_pi other_pi).2.2.1
    (by decide)

/-- C12 (counterexample): `FileA` inserted into the empty file list with the
record `sortingBug_pi` and then with `other_pi`; the lookup returns the first
record, not the later one. -/
theorem filelist_insert_upsert_counterexample :
    filelist_find (NtfsFileNameCompare towupper) name_FileA
        (filelist_insert (NtfsFileNameCompare towupper) (name_FileA, other_pi)
          (filelist_insert (NtfsFileNameCompare towupper) (name_FileA, sortingBug_pi) [])) =
      some (name_FileA, sortingBug_pi) ∧
    filelist_find (NtfsFileNameCompare towupper) name_FileA
        (filelist_insert (NtfsFileNameCompare towupper) (name_FileA, other_pi)
          (filelist_insert (NtfsFileNameCompare towupper) (name_FileA, sortingBug_pi) [])) ≠
      some (name_FileA, other_pi) := by
  decide

/-! ## Name matching in the enumeration -/

theorem PrjFileNameCompare_eq_Ntfs (fold : Nat → Nat) (a b : Name) :
    PrjFileNameCompare fold a b = NtfsFileNameCompare fold a b := by
  induction a generalizing b with
  | nil => simp [PrjFileNameCompare, NtfsFileNameCompare]
  | cons x a ih => simp [PrjFileNameCompare, NtfsFileNameCompare, ih]

/-- Names with equal lower folds have equal upper folds, when code units with
equal lower folds have equal upper folds. -/
theorem foldedName_refine (low up : Nat → Nat)
    (href : ∀ c d, low c = low d → up c = up d) (a b : Name)
    (h : foldedName low a = foldedName low b) : foldedName up a = foldedName up b := by
  induction a generalizing b with
  | nil =>
    cases b with
    | nil => rfl
    | cons y b =>
      by_cases hy : y = 0
      · subst hy; simp [foldedName_cons_zero, foldedName_nil]
      · rw [foldedName_cons low y b hy, foldedName_nil] at h
        cases h
  | cons x a ih =>
    by_cases hx : x = 0
    · subst hx
      rw [foldedName_cons_zero] at h ⊢
      cases b with
      | nil => rfl
      | cons y b =>
        by_cases hy : y = 0
        · subst hy; simp [foldedName_cons_zero]
        · rw [foldedName_cons low y b hy] at h
          cases h
    · rw [foldedName_cons low x a hx] at h
      rw [foldedName_cons up x a hx]
      cases b with
      | nil =>
        rw [foldedName_nil] at h
        cases h
      | cons y b =>
        by_cases hy : y = 0
        · subst hy
          rw [foldedName_cons_zero] at h
          cases h
        · rw [foldedName_cons low y b hy] at h
          rw [foldedName_cons up y b hy]
          have h1 := List.cons.inj h
          rw [href x y h1.1, ih b h1.2]

theorem entrySkipped_plain (host : NameMatchHost) (e name : Name) (he : deref e ≠ 0)
    (hnw : host.PrjDoesNameContainWildCards e = false) :
    entrySkipped host (some e) name = false ↔ host.wcsicmp name e = 0 := by
  simp [entrySkipped, wildCards, hnw, he]

/-- When no two names of a sorted file list can both pass the search
expression, at most one entry matches. -/
theorem matchingEntries_at_most_one (host : NameMatchHost) (expr : Option Name)
    (Comparer : COMPARER) (l : filelist_t) (hl : filelist_sorted Comparer l)
    (hex : ∀ a b, entrySkipped host expr a = false → entrySkipped host expr b = false →
      ¬ Comparer a b < 0) :
    (matchingEntries host expr l).length ≤ 1 := by
  unfold matchingEntries
  rw [List.length_map]
  have hs : (l.filter (fun e => !entrySkipped host expr e.1)).Pairwise
      (fun p q => Comparer p.1 q.1 < 0) := List.Pairwise.sublist (List.filter_sublist _) hl
  have hall : ∀ q ∈ l.filter (fun e => !entrySkipped host expr e.1),
      entrySkipped host expr q.1 = false := by
    intro q hq
    simpa using (List.mem_filter.1 hq).2
  cases hf : l.filter (fun e => !entrySkipped host expr e.1) with
  | nil => simp
  | cons x rest =>
    cases rest with
    | nil => simp
    | cons y rest =>
      exfalso
      rw [hf] at hs hall
      exact hex x.1 y.1 (hall x (by simp)) (hall y (by simp))
        ((List.pairwise_cons.1 hs).1 y (by simp))

/-- C19: name matching in `GetDirEnumCallback`, for a host whose empty
expression holds no wild card and whose `_wcsicmp` is zero exactly on names
with equal lower folds.  With an absent or empty search expression no entry is
passed over and a full scan delivers every entry of the file list.  With a
non-empty expression without wild cards an entry is kept exactly when
`_wcsicmp` of its name and the expression is zero, and a full scan of a file
list sorted under `NtfsFileNameCompare` (or under the lower-fold comparer)
delivers at most one entry.  The folds send only the terminator to `0`, and
code units with equal lower folds have equal upper folds. -/
theorem nameMatching (host : NameMatchHost)
    (hw : host.PrjDoesNameContainWildCards [] = false) (low up : Nat → Nat)
    (hl0 : low 0 = 0) (hlnz : ∀ c, low c = 0 → c = 0) (hu0 : up 0 = 0)
    (hunz : ∀ c, up c = 0 → c = 0) (href : ∀ c d, low c = low d → up c = up d)
    (hwcs : ∀ a b, host.wcsicmp a b = 0 ↔ foldedName low a = foldedName low b)
    (st0 : ProviderState) (path : Name) (id : GUID) (Flags : Nat) (e : Name)
    (he : deref e ≠ 0) (hnw : host.PrjDoesNameContainWildCards e = false) :
    (∀ expr, expr = none ∨ expr = some [] →
      (∀ name, entrySkipped host expr name = false) ∧
      (GetDirEnumCallback host acceptFill (StartDirEnumCallback st0 path id).2 Flags id
          expr []).2.2 = st0.gs_fileList.map (fun q => (q.1, q.2.FileBasicInfo))) ∧
    (∀ name, entrySkipped host (some e) name = false ↔ host.wcsicmp name e = 0) ∧
    (filelist_sorted (NtfsFileNameCompare up) st0.gs_fileList →
      (GetDirEnumCallback host acceptFill (StartDirEnumCallback st0 path id).2 Flags id
          (some e) []).2.2.length ≤ 1) ∧
    (filelist_sorted (PrjFileNameCompare low) st0.gs_fileList →
      (GetDirEnumCallback host acceptFill (StartDirEnumCallback st0 path id).2 Flags id
          (some e) []).2.2.length ≤ 1) := by
  have hplain := entrySkipped_plain host e
  have hsame : ∀ a b, entrySkipped host (some e) a = false →
      entrySkipped host (some e) b = false → foldedName low a = foldedName low b := by
    intro a b ha hb
    have h1 := (hwcs a e).1 ((hplain a he hnw).1 ha)
    have h2 := (hwcs b e).1 ((hplain b he hnw).1 hb)
    rw [h1, h2]
  refine ⟨?_, fun name => hplain name he hnw, ?_, ?_⟩
  · intro expr hexpr
    refine ⟨entrySkipped_empty host hw expr hexpr, ?_⟩
    rw [(fullEnumeration host st0 path id Flags expr).2,
      matchingEntries_empty host hw expr hexpr]
  · intro hs
    rw [(fullEnumeration host st0 path id Flags (some e)).2]
    apply matchingEntries_at_most_one host (some e) (NtfsFileNameCompare up) _ hs
    intro a b ha hb hlt
    have hz := (NtfsFileNameCompare_zero_iff up hu0 hunz a b).2
      (foldedName_refine low up href a b (hsame a b ha hb))
    omega
  · intro hs
    rw [(fullEnumeration host st0 path id Flags (some e)).2]
    apply matchingEntries_at_most_one host (some e) (PrjFileNameCompare low) _ hs
    intro a b ha hb hlt
    rw [PrjFileNameCompare_eq_Ntfs] at hlt
    have hz := (NtfsFileNameCompare_zero_iff low hl0 hlnz a b).2 (hsame a b ha hb)
    omega

theorem towlower_refines_towupper (c d : Nat) (h : towlower c = towlower d) :
    towupper c = towupper d := by
  unfold towlower at h
  unfold towupper
  split_ifs at h ⊢ <;> omega

/-- Witness for C19: the C-locale folds, the file list of
`ReproduceSortingBug` and the search expression `filea`. -/
theorem nameMatching_witness :
    (GetDirEnumCallback plainHost acceptFill (StartDirEnumCallback sortingBug_state [] 7).2 0 7
        (some name_filea) []).2.2.length ≤ 1 :=
  (nameMatching plainHost rfl towlower towupper towlower_zero_eq towlower_eq_zero
    towupper_zero_eq towupper_eq_zero towlower_refines_towupper
    (fun a b => by
      show PrjFileNameCompare towlower a b = 0 ↔ _
      rw [PrjFileNameCompare_eq_Ntfs]
      exact NtfsFileNameCompare_zero_iff towlower towlower_zero_eq towlower_eq_zero a b)
    sortingBug_state [] 7 0 name_filea (by decide) rfl).2.2.1 (by decide)

/-! ## The read-only attribute test -/

/-- The attribute loop counts the steps that still show read-only before the
first that does not. -/
theorem readOnlyLoop_count (pre : List AttrStep) (last : AttrStep) (post : List AttrStep)
    (retry : Nat) (hpre : ∀ s ∈ pre, stillReadOnly s.attr = true ∧ s.setOk = true)
    (hlast : stillReadOnly last.attr = false) :
    readOnlyLoop (pre ++ last :: post) retry = some (some (retry + pre.length)) := by
  induction pre generalizing retry with
  | nil => simp [readOnlyLoop, hlast]
  | cons s pre ih =>
    have hs := hpre s (List.mem_cons_self _ _)
    rw [List.cons_append, readOnlyLoop, if_pos hs.1, if_pos hs.2,
      ih (retry + 1) (fun x hx => hpre x (List.mem_cons_of_mem _ hx))]
    simp [Nat.add_assoc, Nat.add_comm 1]

/-- C15: race detection in one pass of
`ReproduceRemoveReadOnlyFlagNotReallyRemoved`.  When the file materializes,
every clear attempt succeeds and the file can be virtualized again, the retry
counter of the pass is the number of consecutive attribute reads that still
show read-only before the first read that does not, and the pass reports the
race exactly when that number exceeds 1.  For the passes in which the flag is
restored once (two such reads) the result is the race, for the pass in which
it is never restored (one such read) it is not: the three passes give race,
race, no race.  The function itself returns `true` at its first racing
pass. -/
theorem raceDetection (pre : List AttrStep) (last : AttrStep) (post : List AttrStep)
    (hpre : ∀ s ∈ pre, stillReadOnly s.attr = true ∧ s.setOk = true)
    (hlast : stillReadOnly last.attr = false) :
    readOnlyLoop (pre ++ last :: post) 0 = some (some pre.length) ∧
    (ReproduceRemoveReadOnlyFlag_cycle
        { materializeOk := true, steps := pre ++ last :: post, virtualizeOk := true } =
      some CycleResult.raceObserved ↔ pre.length > 1) ∧
    (ReproduceRemoveReadOnlyFlag_cycle
        { materializeOk := true, steps := pre ++ last :: post, virtualizeOk := true } =
      some CycleResult.noRace ↔ ¬ pre.length > 1) ∧
    [restoredOnce_cycle, restoredOnce_cycle, neverRestored_cycle].map
        ReproduceRemoveReadOnlyFlag_cycle =
      [some CycleResult.raceObserved, some CycleResult.raceObserved,
        some CycleResult.noRace] ∧
    ReproduceRemoveReadOnlyFlagNotReallyRemoved
        [restoredOnce_cycle, restoredOnce_cycle, neverRestored_cycle] = some (some true) ∧
    ReproduceRemoveReadOnlyFlagNotReallyRemoved
        [neverRestored_cycle, restoredOnce_cycle] = some (some true) := by
  have hloop := readOnlyLoop_count pre last post 0 hpre hlast
  rw [Nat.zero_add] at hloop
  refine ⟨hloop, ?_, ?_, by decide, by decide, by decide⟩
  · simp only [ReproduceRemoveReadOnlyFlag_cycle, hloop]
    by_cases h : pre.length > 1 <;> simp [h]
  · simp only [ReproduceRemoveReadOnlyFlag_cycle, hloop]
    by_cases h : pre.length > 1 <;> simp [h]

/-- Witness for C15: the pass in which the flag is restored once. -/
theorem raceDetection_witness :
    readOnlyLoop
        ([{ attr := 33, setOk := true }, { attr := 33, setOk := true }] ++
          { attr := 128, setOk := true } :: []) 0 =
      some (some [({ attr := 33, setOk := true } : AttrStep), { attr := 33, setOk := true }].length) :=
  (raceDetection [{ attr := 33, setOk := true }, { attr := 33, setOk := true }]
    { attr := 128, setOk := true } [] (by decide) (by decide)).1

/-! ## Merging listings in different orders -/

/-- C18: scenario C.  The provider's listing of the three names in the
lower-fold order and the listing of the backing store in the upper-fold order,
merged in one linear pass, give four entries when the pass compares with the
lower fold and five when it compares with the upper fold, never three; two
listings in the same order give exactly three under either comparison. -/
theorem scenarioC_merge :
    filelist_names (ReproduceSortingBug_fileList (PrjFileNameCompare towlower)) =
      [name_File_, name_FileA, name_Fileb] ∧
    filelist_names (ReproduceSortingBug_fileList (NtfsFileNameCompare towupper)) =
      [name_FileA, name_Fileb, name_File_] ∧
    linearMerge (PrjFileNameCompare towlower)
        [name_File_, name_FileA, name_Fileb] [name_FileA, name_Fileb, name_File_] =
      [name_File_, name_FileA, name_Fileb, name_File_] ∧
    linearMerge (NtfsFileNameCompare towupper)
        [name_File_, name_FileA, name_Fileb] [name_FileA, name_Fileb, name_File_] =
      [name_FileA, name_Fileb, name_File_, name_FileA, name_Fileb] ∧
    (linearMerge (PrjFileNameCompare towlower)
        [name_File_, name_FileA, name_Fileb] [name_FileA, name_Fileb, name_File_]).length ≠ 3 ∧
    (linearMerge (NtfsFileNameCompare towupper)
        [name_File_, name_FileA, name_Fileb] [name_FileA, name_Fileb, name_File_]).length ≠ 3 ∧
    (linearMerge (PrjFileNameCompare towlower)
        [name_File_, name_FileA, name_Fileb] [name_File_, name_FileA, name_Fileb]).length = 3 ∧
    (linearMerge (NtfsFileNameCompare towupper)
        [name_FileA, name_Fileb, name_File_] [name_FileA, name_Fileb, name_File_]).length = 3 ∧
    (linearMerge (NtfsFileNameCompare towupper)
        [name_File_, name_FileA, name_Fileb] [name_File_, name_FileA, name_Fileb]).length = 3 ∧
    (linearMerge (PrjFileNameCompare towlower)
        [name_FileA, name_Fileb, name_File_] [name_FileA, name_Fileb, name_File_]).length = 3 := by
  decide

end PrjFlt
